import Mathlib

/-!
Verification of the Hazel OpenGL shader / vertex-array layer.

The development shallowly embeds the C++ sources
`src/Hazel/src/Platform/OpenGL/OpenGLShader.cpp` and
`src/Hazel/src/Platform/OpenGL/OpenGLVertexArray.cpp`.

Strings (`std::string`) are modelled as `List Char`; `size_t` positions are
modelled as `Nat` with the `std::string::npos` sentinel `NPOS = 2 ^ 64 - 1`
and explicit wrap-around subtraction `usub` where the C++ subtraction is a
`size_t` subtraction.  Fatal `HZ_CORE_ASSERT` failures and the
`std::out_of_range` exception of `substr` are modelled as `Except` / `Option`
error results.  Calls into the native OpenGL context are modelled as an
explicit event trace; where the behaviour of the native context itself
matters it is modelled from the specification (marked in doc comments).
-/

deriving instance DecidableEq for Except

namespace Hazel

/-- Modulus of the C++ `size_t` type (64-bit). -/
def SIZE_MOD : Nat := 2 ^ 64

/-- Value of `std::string::npos`. -/
def NPOS : Nat := 2 ^ 64 - 1

/-- Wrap-around `size_t` subtraction `a - b` modulo `2 ^ 64`. -/
def usub (a b : Nat) : Nat := (a + SIZE_MOD - b) % SIZE_MOD

/-- Bounded forward scan: the first index `j` with `i ≤ j < i + fuel` and
`p j = true`, and `NPOS` when there is none. -/
def scanFrom (p : Nat → Bool) : Nat → Nat → Nat
  | _, 0 => NPOS
  | i, fuel + 1 => if p i then i else scanFrom p (i + 1) fuel

/-- Models `std::string::find(needle, start)` on a character list. -/
def strFind (s needle : List Char) (start : Nat) : Nat :=
  if start ≤ s.length then
    scanFrom (fun i => needle.isPrefixOf (s.drop i)) start (s.length + 1 - start)
  else NPOS

/-- Character at index `j` is one of `cs` (helper for `find_first_of`). -/
def memAt (s cs : List Char) (j : Nat) : Bool :=
  match s[j]? with
  | some c => cs.contains c
  | none => false

/-- Character at index `j` exists and is not one of `cs`
(helper for `find_first_not_of`). -/
def notMemAt (s cs : List Char) (j : Nat) : Bool :=
  match s[j]? with
  | some c => !(cs.contains c)
  | none => false

/-- Models `std::string::find_first_of(cs, start)`. -/
def findFirstOf (s cs : List Char) (start : Nat) : Nat :=
  if start ≤ s.length then scanFrom (fun i => memAt s cs i) start (s.length + 1 - start)
  else NPOS

/-- Models `std::string::find_first_not_of(cs, start)`. -/
def findFirstNotOf (s cs : List Char) (start : Nat) : Nat :=
  if start ≤ s.length then scanFrom (fun i => notMemAt s cs i) start (s.length + 1 - start)
  else NPOS

/-- Bounded backward scan from index `i` down to `0`. -/
def scanBack (p : Nat → Bool) : Nat → Nat
  | 0 => if p 0 then 0 else NPOS
  | i + 1 => if p (i + 1) then i + 1 else scanBack p i

/-- Models `std::string::find_last_of(cs)` (search from the end). -/
def findLastOf (s cs : List Char) : Nat :=
  match s.length with
  | 0 => NPOS
  | n + 1 => scanBack (fun i => memAt s cs i) n

/-- Models `std::string::rfind(c)` for a single character. -/
def rfindChar (s : List Char) (c : Char) : Nat :=
  findLastOf s [c]

/-- Models `std::string::substr(pos, len)`; `none` models the
`std::out_of_range` exception thrown when `pos > size()`. -/
def substrE (s : List Char) (pos len : Nat) : Option (List Char) :=
  if pos ≤ s.length then some ((s.drop pos).take len) else none

/-! ## OpenGLShader.cpp : ShaderTypeFromString and PreProcess -/

/-- The OpenGL enumerant `GL_VERTEX_SHADER` (0x8B31). -/
def GL_VERTEX_SHADER : Nat := 35633

/-- The OpenGL enumerant `GL_FRAGMENT_SHADER` (0x8B30). -/
def GL_FRAGMENT_SHADER : Nat := 35632

/-- The marker token `"#type"` of the shader source file format. -/
def typeToken : List Char := ("#type").toList

/-- The line-break characters `"\r\n"` used by `PreProcess`. -/
def crlf : List Char := ("\r\n").toList

/-- Embeds `ShaderTypeFromString` (OpenGLShader.cpp:10-19).  The
`HZ_CORE_ASSERT(false, "Unknown shader type!")` on an unrecognized name is a
fatal halt, modelled as `none`. -/
def ShaderTypeFromString (t : List Char) : Option Nat :=
  if t = ("vertex").toList then some GL_VERTEX_SHADER
  else if t = ("fragment").toList ∨ t = ("pixel").toList then some GL_FRAGMENT_SHADER
  else none

/-- Fatal outcomes of `PreProcess`. -/
inductive PPError
  /-- the `HZ_CORE_ASSERT(eol != std::string::npos, "Sytax error")` fails -/
  | syntaxError
  /-- `ShaderTypeFromString` hits its fatal assert -/
  | unknownShaderType (t : List Char)
  /-- a `substr` call throws `std::out_of_range` -/
  | outOfRange
  /-- fuel exhaustion of the embedding; unreachable for sources whose length
  is below the fuel bound used by `PreProcess` -/
  | fuelExhausted
  deriving DecidableEq

/-- Models `shaderSources[k] = v` on an `std::unordered_map` represented as an
association list in insertion order: replace the mapping of `k` if present,
otherwise append it. -/
def mapSet (m : List (Nat × List Char)) (k : Nat) (v : List Char) : List (Nat × List Char) :=
  if m.any (fun p => p.1 == k) then
    m.map (fun p => if p.1 == k then (k, v) else p)
  else m ++ [(k, v)]

/-- Embeds the `while` loop of `OpenGLShader::PreProcess`
(OpenGLShader.cpp:80-93).  Within one iteration the order of effects follows
the C++: the end-of-line search and its assert, the `substr` extracting the
stage name, `find_first_not_of`, the `find` for the next token, then the
assignment `shaderSources[ShaderTypeFromString(type)] = source.substr(...)`,
whose right-hand side (the `substr`) is sequenced before the key expression
(C++17): the `substr` may throw `std::out_of_range` before
`ShaderTypeFromString` can assert. -/
def preProcessLoop (source : List Char) :
    Nat → List (Nat × List Char) → Nat → Except PPError (List (Nat × List Char))
  | _, _, 0 => .error .fuelExhausted
  | pos, acc, fuel + 1 =>
    if pos = NPOS then .ok acc
    else
      let eol := findFirstOf source crlf pos
      if eol = NPOS then .error .syntaxError
      else
        match substrE source (pos + typeToken.length + 1) (usub eol (pos + typeToken.length + 1)) with
        | none => .error .outOfRange
        | some ty =>
          let nextLinePos := findFirstNotOf source crlf eol
          let pos' := strFind source typeToken nextLinePos
          match substrE source nextLinePos
              (usub pos' (if nextLinePos = NPOS then usub source.length 1 else nextLinePos)) with
          | none => .error .outOfRange
          | some code =>
            match ShaderTypeFromString ty with
            | none => .error (.unknownShaderType ty)
            | some k => preProcessLoop source pos' (mapSet acc k code) fuel

/-- Embeds `OpenGLShader::PreProcess` (OpenGLShader.cpp:71-95).  The fuel
`source.length + 2` dominates the iteration count: the scan position strictly
increases and stays at most `source.length` until it becomes `NPOS`. -/
def PreProcess (source : List Char) : Except PPError (List (Nat × List Char)) :=
  preProcessLoop source (strFind source typeToken 0) [] (source.length + 2)

example : PreProcess (("#type vertex\nAAA").toList) =
    .ok [(GL_VERTEX_SHADER, ("AAA").toList)] := by decide

example : PreProcess (("#type vertex\nA\n#type fragment\nB").toList) =
    .ok [(GL_VERTEX_SHADER, ("A\n").toList), (GL_FRAGMENT_SHADER, ("B").toList)] := by
  decide

example : PreProcess (("#type vertex\n").toList) = .error .outOfRange := by decide

example : PreProcess (("#type foo\nxyz").toList) =
    .error (.unknownShaderType (("foo").toList)) := by decide

/-! ## Characterization lemmas for the string scans -/

theorem scanFrom_found (p : Nat → Bool) (fuel : Nat) :
    ∀ i m, i ≤ m → m < i + fuel → p m = true →
      (∀ j, i ≤ j → j < m → p j = false) → scanFrom p i fuel = m := by
  induction fuel with
  | zero => intro i m h1 h2; omega
  | succ fuel ih =>
    intro i m h1 h2 h3 h4
    rcases Nat.eq_or_lt_of_le h1 with he | hlt
    · subst he
      simp [scanFrom, h3]
    · have hpi : p i = false := h4 i le_rfl hlt
      simp only [scanFrom, hpi, Bool.false_eq_true, if_false]
      exact ih (i + 1) m (by omega) (by omega) h3 (fun j hj1 hj2 => h4 j (by omega) hj2)

theorem scanFrom_none (p : Nat → Bool) (fuel : Nat) :
    ∀ i, (∀ j, i ≤ j → j < i + fuel → p j = false) → scanFrom p i fuel = NPOS := by
  induction fuel with
  | zero => intro i _; rfl
  | succ fuel ih =>
    intro i h
    have hpi : p i = false := h i le_rfl (by omega)
    simp only [scanFrom, hpi, Bool.false_eq_true, if_false]
    exact ih (i + 1) (fun j hj1 hj2 => h j (by omega) (by omega))

theorem strFind_eq (s needle : List Char) (start m : Nat)
    (h1 : start ≤ m) (h2 : m ≤ s.length)
    (h3 : needle.isPrefixOf (s.drop m) = true)
    (h4 : ∀ j, start ≤ j → j < m → needle.isPrefixOf (s.drop j) = false) :
    strFind s needle start = m := by
  unfold strFind
  rw [if_pos (by omega)]
  exact scanFrom_found _ _ start m h1 (by omega) h3 h4

theorem strFind_npos (s needle : List Char) (start : Nat)
    (h : ∀ j, start ≤ j → j ≤ s.length → needle.isPrefixOf (s.drop j) = false) :
    strFind s needle start = NPOS := by
  unfold strFind
  by_cases hs : start ≤ s.length
  · rw [if_pos hs]
    exact scanFrom_none _ _ start (fun j hj1 hj2 => h j hj1 (by omega))
  · rw [if_neg hs]

theorem findFirstOf_eq (s cs : List Char) (start m : Nat)
    (h1 : start ≤ m) (h2 : m ≤ s.length)
    (h3 : memAt s cs m = true)
    (h4 : ∀ j, start ≤ j → j < m → memAt s cs j = false) :
    findFirstOf s cs start = m := by
  unfold findFirstOf
  rw [if_pos (by omega)]
  exact scanFrom_found _ _ start m h1 (by omega) h3 h4

theorem findFirstNotOf_eq (s cs : List Char) (start m : Nat)
    (h1 : start ≤ m) (h2 : m ≤ s.length)
    (h3 : notMemAt s cs m = true)
    (h4 : ∀ j, start ≤ j → j < m → notMemAt s cs j = false) :
    findFirstNotOf s cs start = m := by
  unfold findFirstNotOf
  rw [if_pos (by omega)]
  exact scanFrom_found _ _ start m h1 (by omega) h3 h4

/-! ## Helpers about isPrefixOf, indexing and usub -/

theorem isPrefixOf_append_self (l r : List Char) : l.isPrefixOf (l ++ r) = true := by
  induction l with
  | nil => simp [List.isPrefixOf]
  | cons a as ih => simp [List.isPrefixOf, ih]

theorem length_le_of_isPrefixOf {l m : List Char} (h : l.isPrefixOf m = true) :
    l.length ≤ m.length := by
  induction l generalizing m with
  | nil => simp
  | cons a as ih =>
    cases m with
    | nil => simp [List.isPrefixOf] at h
    | cons b bs =>
      simp only [List.isPrefixOf, Bool.and_eq_true] at h
      simpa using ih h.2

theorem isPrefixOf_false_of_short {l m : List Char} (h : m.length < l.length) :
    l.isPrefixOf m = false := by
  rcases hb : l.isPrefixOf m with _ | _
  · rfl
  · exact absurd (length_le_of_isPrefixOf hb) (by omega)

theorem getElemQ_of_isPrefixOf {l m : List Char} (h : l.isPrefixOf m = true) :
    ∀ k, k < l.length → m[k]? = l[k]? := by
  induction l generalizing m with
  | nil => intro k hk; simp at hk
  | cons a as ih =>
    cases m with
    | nil => simp [List.isPrefixOf] at h
    | cons b bs =>
      simp only [List.isPrefixOf, Bool.and_eq_true, beq_iff_eq] at h
      intro k hk
      cases k with
      | zero => simp [h.1]
      | succ k => simpa using ih h.2 k (by simpa using hk)

theorem isPrefixOf_append_of_le (l a b : List Char) (h : l.length ≤ a.length) :
    l.isPrefixOf (a ++ b) = l.isPrefixOf a := by
  induction l generalizing a with
  | nil => simp [List.isPrefixOf]
  | cons x xs ih =>
    cases a with
    | nil => simp at h
    | cons y ys =>
      simp only [List.cons_append, List.isPrefixOf, List.append_eq]
      rw [ih ys (by simpa using h)]

theorem usub_add_self (a b : Nat) (h : b < SIZE_MOD) : usub (a + b) a = b := by
  unfold usub
  have : a + b + SIZE_MOD - a = b + SIZE_MOD := by omega
  rw [this, Nat.add_mod_right, Nat.mod_eq_of_lt h]

theorem usub_of_le (a b : Nat) (hba : b ≤ a) (h : a - b < SIZE_MOD) : usub a b = a - b := by
  unfold usub
  have : a + SIZE_MOD - b = (a - b) + SIZE_MOD := by omega
  rw [this, Nat.add_mod_right, Nat.mod_eq_of_lt h]

theorem NPOS_lt_SIZE_MOD : NPOS < SIZE_MOD := by decide

/-! ## Position analysis of a marker block inside a source string

These lemmas compute the four searches performed by one iteration of the
`PreProcess` loop on a source of the shape
`pre ++ "#type " ++ n ++ br ++ x` (marker token, one space, stage name `n`
free of line breaks, a nonempty run `br` of line-break characters, then the
remainder `x`). -/

/-- Decides whether `"#type"` occurs as a substring. -/
def containsTok (l : List Char) : Bool :=
  (List.range (l.length + 1)).any (fun i => typeToken.isPrefixOf (l.drop i))

theorem noTok_all {l : List Char} (h : containsTok l = false) (d : Nat) :
    typeToken.isPrefixOf (l.drop d) = false := by
  by_cases hd : d ≤ l.length
  · unfold containsTok at h
    rw [List.any_eq_false] at h
    have hfa := h d (by rw [List.mem_range]; omega)
    rcases hb : typeToken.isPrefixOf (l.drop d) with _ | _
    · rfl
    · exact absurd hb hfa
  · apply isPrefixOf_false_of_short
    rw [List.length_drop]
    have h0 : l.length - d = 0 := by omega
    rw [h0]
    decide

theorem stfs_no_crlf {n : List Char} {t : Nat} (h : ShaderTypeFromString n = some t) :
    ∀ c ∈ n, crlf.contains c = false := by
  unfold ShaderTypeFromString at h
  split at h
  · next h1 => subst h1; decide
  · split at h
    · next h2 => rcases h2 with h2 | h2 <;> (subst h2; decide)
    · simp at h

theorem getq_split (s a w : List Char) (i k : Nat) (hdrop : s.drop i = a ++ w)
    (hk : a.length ≤ k) : s[i + k]? = w[k - a.length]? := by
  rw [← List.getElem?_drop, hdrop, List.getElem?_append_right hk]

theorem getq_split_left (s a w : List Char) (i k : Nat) (hdrop : s.drop i = a ++ w)
    (hk : k < a.length) : s[i + k]? = a[k]? := by
  rw [← List.getElem?_drop, hdrop, List.getElem?_append_left hk]

section MarkerBlock

variable (s pre n br x : List Char)

/-- Canonical shape hypothesis for one marker block starting at `pre.length`. -/
def markerShape : Prop :=
  s = pre ++ (typeToken ++ (' ' :: (n ++ (br ++ x))))

variable {s pre n br x}

theorem markerShape_len (hs : markerShape s pre n br x) :
    s.length = pre.length + 6 + n.length + br.length + x.length := by
  rw [hs]
  simp [typeToken]
  omega

theorem markerShape_drop0 (hs : markerShape s pre n br x) :
    s.drop pre.length = (typeToken ++ [' ']) ++ (n ++ (br ++ x)) := by
  rw [hs, List.drop_left]
  simp

theorem markerShape_drop6 (hs : markerShape s pre n br x) :
    s.drop (pre.length + 6) = n ++ (br ++ x) := by
  rw [hs]
  have : pre ++ (typeToken ++ (' ' :: (n ++ (br ++ x)))) =
      (pre ++ (typeToken ++ [' '])) ++ (n ++ (br ++ x)) := by simp
  rw [this, List.drop_left' (by simp [typeToken])]

theorem markerShape_dropnl (hs : markerShape s pre n br x) :
    s.drop (pre.length + 6 + n.length + br.length) = x := by
  rw [hs]
  have : pre ++ (typeToken ++ (' ' :: (n ++ (br ++ x)))) =
      (pre ++ (typeToken ++ [' ']) ++ n ++ br) ++ x := by simp
  rw [this, List.drop_left' (by simp [typeToken]; omega)]

theorem markerShape_eol (hs : markerShape s pre n br x)
    (hn : ∀ c ∈ n, crlf.contains c = false)
    (hbrne : br ≠ []) (hbr : ∀ c ∈ br, crlf.contains c = true) :
    findFirstOf s crlf pre.length = pre.length + 6 + n.length := by
  have hlen := markerShape_len hs
  apply findFirstOf_eq
  · omega
  · omega
  · -- the character there is the head of `br`, a line break
    unfold memAt
    have : pre.length + 6 + n.length = (pre.length + 6) + n.length := by omega
    rw [this, getq_split s n (br ++ x) (pre.length + 6) n.length (markerShape_drop6 hs) le_rfl]
    cases br with
    | nil => exact absurd rfl hbrne
    | cons c cs =>
      simp only [Nat.sub_self]
      simp only [List.cons_append, List.getElem?_cons_zero]
      exact hbr c (by simp)
  · intro j hj1 hj2
    unfold memAt
    set d := j - pre.length with hd
    have hjd : j = pre.length + d := by omega
    by_cases h6 : d < 6
    · rw [hjd, getq_split_left s (typeToken ++ [' ']) (n ++ (br ++ x)) pre.length d
        (markerShape_drop0 hs) (by simp [typeToken]; omega)]
      interval_cases d <;> simp [typeToken, crlf]
    · have hdn : d - 6 < n.length := by omega
      have hjd6 : j = (pre.length + 6) + (d - 6) := by omega
      rw [hjd6, getq_split_left s n (br ++ x) (pre.length + 6) (d - 6)
        (markerShape_drop6 hs) hdn]
      rcases hc : n[d - 6]? with _ | c
      · rfl
      · exact hn c (List.getElem?_mem hc)

theorem markerShape_nextLine (hs : markerShape s pre n br x)
    (hbr : ∀ c ∈ br, crlf.contains c = true)
    (hxne : x ≠ []) (hxh : ∀ c, x[0]? = some c → crlf.contains c = false) :
    findFirstNotOf s crlf (pre.length + 6 + n.length) =
      pre.length + 6 + n.length + br.length := by
  have hlen := markerShape_len hs
  apply findFirstNotOf_eq
  · omega
  · omega
  · unfold notMemAt
    have heq : pre.length + 6 + n.length + br.length = (pre.length + 6) + (n.length + br.length) := by
      omega
    rw [heq, getq_split s n (br ++ x) (pre.length + 6) (n.length + br.length)
      (markerShape_drop6 hs) (by omega)]
    have heq2 : n.length + br.length - n.length = br.length := by omega
    rw [heq2, List.getElem?_append_right (le_refl br.length), Nat.sub_self]
    cases x with
    | nil => exact absurd rfl hxne
    | cons c cs =>
      simp only [Nat.sub_self, List.getElem?_cons_zero]
      have := hxh c (by simp)
      simpa using this
  · intro j hj1 hj2
    unfold notMemAt
    set d := j - (pre.length + 6 + n.length) with hd
    have hdbr : d < br.length := by omega
    have hjd : j = (pre.length + 6) + (n.length + d) := by omega
    rw [hjd, getq_split s n (br ++ x) (pre.length + 6) (n.length + d)
      (markerShape_drop6 hs) (by omega)]
    have heq2 : n.length + d - n.length = d := by omega
    rw [heq2, List.getElem?_append_left hdbr]
    rcases hc : br[d]? with _ | c
    · rfl
    · have := hbr c (List.getElem?_mem hc)
      simpa using this

theorem markerShape_find_mid {tail : List Char}
    (hs : markerShape s pre n br (r ++ (typeToken ++ (' ' :: tail))))
    (hrt : containsTok r = false) :
    strFind s typeToken (pre.length + 6 + n.length + br.length) =
      pre.length + 6 + n.length + br.length + r.length := by
  have hlen := markerShape_len hs
  have hxlen : (r ++ (typeToken ++ (' ' :: tail))).length = r.length + 6 + tail.length := by
    simp [typeToken]
    omega
  have hdropnl := markerShape_dropnl hs
  apply strFind_eq
  · omega
  · omega
  · have hdd : s.drop (pre.length + 6 + n.length + br.length + r.length) =
        typeToken ++ (' ' :: tail) := by
      rw [← List.drop_drop r.length (pre.length + 6 + n.length + br.length) s, hdropnl,
        List.drop_left]
    rw [hdd]
    exact isPrefixOf_append_self _ _
  · intro j hj1 hj2
    set d := j - (pre.length + 6 + n.length + br.length) with hdef
    have hdr : d < r.length := by omega
    have hj : j = (pre.length + 6 + n.length + br.length) + d := by omega
    rw [hj, ← List.drop_drop d (pre.length + 6 + n.length + br.length) s, hdropnl,
      List.drop_append_of_le_length (by omega)]
    by_cases hlong : typeToken.length ≤ (r.drop d).length
    · rw [isPrefixOf_append_of_le _ _ _ hlong]
      exact noTok_all hrt d
    · rcases hb : typeToken.isPrefixOf (r.drop d ++ (typeToken ++ (' ' :: tail))) with _ | _
      · rfl
      · exfalso
        have hrd : (r.drop d).length = r.length - d := List.length_drop d r
        have hk1 : 1 ≤ r.length - d := by omega
        have hk2 : r.length - d < typeToken.length := by
          rw [← hrd]
          omega
        have hget := getElemQ_of_isPrefixOf hb (r.length - d) hk2
        rw [List.getElem?_append_right (by omega)] at hget
        rw [hrd] at hget
        rw [Nat.sub_self] at hget
        have hz : (typeToken ++ (' ' :: tail))[0]? = some '#' := by
          simp [typeToken]
        rw [hz] at hget
        have hk5 : r.length - d < 5 := by
          have : typeToken.length = 5 := rfl
          omega
        interval_cases h : (r.length - d) <;> simp [typeToken] at hget

theorem markerShape_find_last (hs : markerShape s pre n br x)
    (hxt : containsTok x = false) :
    strFind s typeToken (pre.length + 6 + n.length + br.length) = NPOS := by
  have hlen := markerShape_len hs
  have hdropnl := markerShape_dropnl hs
  apply strFind_npos
  intro j hj1 hj2
  have hj : j = (pre.length + 6 + n.length + br.length) +
      (j - (pre.length + 6 + n.length + br.length)) := by omega
  rw [hj, ← List.drop_drop, hdropnl]
  exact noTok_all hxt _

/-- One loop iteration of `PreProcess` on a marker block that is followed by a
further `"#type"` marker: the block's stage type is recorded with the literal
text `r` between the skipped line breaks and the next marker, and the scan
moves to that next marker. -/
theorem preProcess_step_mid {tail : List Char} (acc : List (Nat × List Char)) {t : Nat}
    (fuel : Nat)
    (hs : markerShape s pre n br (r ++ (typeToken ++ (' ' :: tail))))
    (hlenN : s.length < NPOS)
    (ht : ShaderTypeFromString n = some t)
    (hbrne : br ≠ []) (hbr : ∀ c ∈ br, crlf.contains c = true)
    (hrh : ∀ c, (r ++ (typeToken ++ (' ' :: tail)))[0]? = some c → crlf.contains c = false)
    (hrt : containsTok r = false) :
    preProcessLoop s pre.length acc (fuel + 1) =
      preProcessLoop s (pre.length + 6 + n.length + br.length + r.length)
        (mapSet acc t r) fuel := by
  have hlen := markerShape_len hs
  have hxlen : (r ++ (typeToken ++ (' ' :: tail))).length = r.length + 6 + tail.length := by
    simp [typeToken]
    omega
  have hn := stfs_no_crlf ht
  have heol := markerShape_eol hs hn hbrne hbr
  have hnl := markerShape_nextLine hs hbr (by simp) hrh
  have hfind := markerShape_find_mid hs hrt
  have htok5 : typeToken.length = 5 := rfl
  have hne0 : ¬(pre.length = NPOS) := by omega
  have hne1 : ¬(pre.length + 6 + n.length = NPOS) := by omega
  have hne2 : ¬(pre.length + 6 + n.length + br.length = NPOS) := by omega
  have hty : substrE s (pre.length + 5 + 1)
      (usub (pre.length + 6 + n.length) (pre.length + 5 + 1)) = some n := by
    have h56 : pre.length + 5 + 1 = pre.length + 6 := rfl
    rw [h56, usub_add_self _ _ (by have := NPOS_lt_SIZE_MOD; omega)]
    unfold substrE
    rw [if_pos (by omega), markerShape_drop6 hs, List.take_left n _]
  have hval : substrE s (pre.length + 6 + n.length + br.length)
      (usub (pre.length + 6 + n.length + br.length + r.length)
        (pre.length + 6 + n.length + br.length)) = some r := by
    rw [usub_add_self _ _ (by have := NPOS_lt_SIZE_MOD; omega)]
    unfold substrE
    rw [if_pos (by omega), markerShape_dropnl hs, List.take_left r _]
  simp only [preProcessLoop, heol, hnl, hfind, htok5, hne0, hne1, hne2, if_false, hty, hval,
    ht, ite_false]

/-- One loop iteration of `PreProcess` on a final marker block (no further
`"#type"` marker follows): the block's stage type is recorded with the
remaining text `x` and the loop terminates with the accumulated mapping. -/
theorem preProcess_step_last (acc : List (Nat × List Char)) {t : Nat} (fuel : Nat)
    (hs : markerShape s pre n br x)
    (hlenN : s.length < NPOS)
    (ht : ShaderTypeFromString n = some t)
    (hbrne : br ≠ []) (hbr : ∀ c ∈ br, crlf.contains c = true)
    (hxne : x ≠ [])
    (hxh : ∀ c, x[0]? = some c → crlf.contains c = false)
    (hxt : containsTok x = false) :
    preProcessLoop s pre.length acc (fuel + 2) = .ok (mapSet acc t x) := by
  have hlen := markerShape_len hs
  have hn := stfs_no_crlf ht
  have heol := markerShape_eol hs hn hbrne hbr
  have hnl := markerShape_nextLine hs hbr hxne hxh
  have hfind := markerShape_find_last hs hxt
  have htok5 : typeToken.length = 5 := rfl
  have hne0 : ¬(pre.length = NPOS) := by omega
  have hne1 : ¬(pre.length + 6 + n.length = NPOS) := by omega
  have hne2 : ¬(pre.length + 6 + n.length + br.length = NPOS) := by omega
  have hty : substrE s (pre.length + 5 + 1)
      (usub (pre.length + 6 + n.length) (pre.length + 5 + 1)) = some n := by
    have h56 : pre.length + 5 + 1 = pre.length + 6 := rfl
    rw [h56, usub_add_self _ _ (by have := NPOS_lt_SIZE_MOD; omega)]
    unfold substrE
    rw [if_pos (by omega), markerShape_drop6 hs, List.take_left n _]
  have hval : substrE s (pre.length + 6 + n.length + br.length)
      (usub NPOS (pre.length + 6 + n.length + br.length)) = some x := by
    rw [usub_of_le _ _ (by omega) (by have := NPOS_lt_SIZE_MOD; omega)]
    unfold substrE
    rw [if_pos (by omega), markerShape_dropnl hs, List.take_of_length_le (by omega)]
  simp only [preProcessLoop, heol, hnl, hfind, htok5, hne0, hne1, hne2, if_false, hty, hval,
    ht, ite_false]
  rfl

end MarkerBlock

theorem head_append_token (r w : List Char)
    (hrh : ∀ c, r[0]? = some c → crlf.contains c = false) :
    ∀ c, (r ++ (typeToken ++ w))[0]? = some c → crlf.contains c = false := by
  intro c hc
  cases r with
  | nil =>
    simp [typeToken] at hc
    subst hc
    decide
  | cons a as =>
    rw [List.getElem?_append_left (by simp)] at hc
    exact hrh c hc

/-- A well-formed two-stage source: a marker line for stage name `n1`, its
line break(s) `br1`, stage text `r1`, then a marker line for `n2`, line
break(s) `br2`, and stage text `r2`. -/
def twoStageSource (n1 br1 r1 n2 br2 r2 : List Char) : List Char :=
  typeToken ++ (' ' :: (n1 ++ (br1 ++ (r1 ++ (typeToken ++ (' ' :: (n2 ++ (br2 ++ r2))))))))

/-- C2: on every well-formed two-stage source text whose two marker lines name
recognized stages of distinct kinds, `PreProcess` returns exactly two entries,
keyed by the two recognized stage kinds, each carrying the literal substring
of the input from just after the line breaks that follow the stage name up to
the next marker (for the first block) or to the end of input (for the second).
Well-formedness: the stage texts contain no `"#type"` token and do not start
with a line break (leading line breaks would belong to `br1`/`br2`), the
line-break runs are nonempty, the second stage text is nonempty, and the
source fits in a `size_t`. -/
theorem C2_preProcess_two_stage_split
    (n1 br1 r1 n2 br2 r2 : List Char) (t1 t2 : Nat)
    (ht1 : ShaderTypeFromString n1 = some t1)
    (ht2 : ShaderTypeFromString n2 = some t2)
    (hne : t1 ≠ t2)
    (hbr1ne : br1 ≠ []) (hbr1 : ∀ c ∈ br1, crlf.contains c = true)
    (hbr2ne : br2 ≠ []) (hbr2 : ∀ c ∈ br2, crlf.contains c = true)
    (hr1h : ∀ c, r1[0]? = some c → crlf.contains c = false)
    (hr1t : containsTok r1 = false)
    (hr2ne : r2 ≠ [])
    (hr2h : ∀ c, r2[0]? = some c → crlf.contains c = false)
    (hr2t : containsTok r2 = false)
    (hlenN : (twoStageSource n1 br1 r1 n2 br2 r2).length < NPOS) :
    PreProcess (twoStageSource n1 br1 r1 n2 br2 r2) = .ok [(t1, r1), (t2, r2)] := by
  set s := twoStageSource n1 br1 r1 n2 br2 r2 with hsdef
  have hshape1 : markerShape s [] n1 br1 (r1 ++ (typeToken ++ (' ' :: (n2 ++ (br2 ++ r2))))) := by
    simp [markerShape, hsdef, twoStageSource]
  have hshape2 : markerShape s (typeToken ++ (' ' :: (n1 ++ (br1 ++ r1)))) n2 br2 r2 := by
    simp [markerShape, hsdef, twoStageSource]
  have hfind0 : strFind s typeToken 0 = 0 := by
    apply strFind_eq s typeToken 0 0 le_rfl (by omega)
    · rw [List.drop_zero, hsdef]
      unfold twoStageSource
      exact isPrefixOf_append_self _ _
    · omega
  have hslen : s.length = 6 + n1.length + br1.length + r1.length +
      (6 + n2.length + br2.length + r2.length) := by
    have := markerShape_len hshape1
    simp at this
    simp [this, typeToken]
    omega
  unfold PreProcess
  rw [hfind0]
  have h0 : (0 : Nat) = ([] : List Char).length := rfl
  have hfuel1 : s.length + 2 = (s.length + 1) + 1 := rfl
  rw [h0, hfuel1, preProcess_step_mid [] (s.length + 1) hshape1 hlenN ht1 hbr1ne hbr1
    (head_append_token r1 (' ' :: (n2 ++ (br2 ++ r2))) hr1h) hr1t]
  have hpos2 : ([] : List Char).length + 6 + n1.length + br1.length + r1.length =
      (typeToken ++ (' ' :: (n1 ++ (br1 ++ r1)))).length := by
    simp [typeToken]
    omega
  have hfuel2 : s.length + 1 = (s.length - 1) + 2 := by omega
  rw [hpos2, hfuel2, preProcess_step_last (mapSet [] t1 r1) (s.length - 1) hshape2 hlenN ht2
    hbr2ne hbr2 hr2ne hr2h hr2t]
  have hm1 : mapSet [] t1 r1 = [(t1, r1)] := by simp [mapSet]
  have hm2 : mapSet [(t1, r1)] t2 r2 = [(t1, r1), (t2, r2)] := by
    simp [mapSet, hne]
  rw [hm1, hm2]

theorem headNotCrlf_of_cons (a : Char) (l : List Char) (ha : crlf.contains a = false) :
    ∀ c, (a :: l)[0]? = some c → crlf.contains c = false := by
  intro c hc
  rw [List.getElem?_cons_zero] at hc
  injection hc with h
  subst h
  exact ha

/-- Witness for C2 at a concrete two-stage source. -/
theorem C2_witness :
    PreProcess (twoStageSource (("vertex").toList) (("\n").toList) (("A\n").toList)
        (("fragment").toList) (("\r\n").toList) (("B").toList)) =
      .ok [(GL_VERTEX_SHADER, ("A\n").toList), (GL_FRAGMENT_SHADER, ("B").toList)] :=
  C2_preProcess_two_stage_split _ _ _ _ _ _ _ _ (by decide) (by decide) (by decide)
    (by decide) (by decide) (by decide) (by decide)
    (headNotCrlf_of_cons 'A' _ (by decide)) (by decide) (by decide)
    (headNotCrlf_of_cons 'B' _ (by decide)) (by decide) (by decide)

/-! ## OpenGLShader.cpp : Compile, ReadFile and the file constructor

Calls into the native graphics context and the `HZ_CORE_ERROR` diagnostics
are recorded as an event trace.  Handles are allocated deterministically:
`glCreateProgram` returns `1` and the `i`-th `glCreateShader` of an attempt
returns `2 + i` (handles are opaque, only identity matters).  The two-slot
stack array `std::array<GLenum, 2> glShaderIDs` starts with indeterminate
contents, modelled by the parameter `uninit`. -/

/-- Events of one shader-construction attempt: native calls and diagnostics. -/
inductive Event
  | createProgram (id : Nat)
  | createShader (ty id : Nat)
  | shaderSource (id : Nat) (src : List Char)
  | compileShader (id : Nat)
  | deleteShader (id : Nat)
  | attachShader (prog id : Nat)
  | linkProgram (prog : Nat)
  | deleteProgram (prog : Nat)
  | detachShader (prog id : Nat)
  | useProgram (prog : Nat)
  /-- an `HZ_CORE_ERROR` surfacing a compile or link info log -/
  | coreError (msg : List Char)
  /-- the `HZ_CORE_ERROR` of `ReadFile` when the file cannot be opened -/
  | fileOpenError (path : List Char)
  deriving DecidableEq

/-- Behaviour of the native context for one attempt: per-stage compile
success and info log, and the link result. -/
structure GLSpec where
  compileOk : Nat → List Char → Bool
  infoLog : Nat → List Char → List Char
  linkOk : Bool
  linkLog : List Char

/-- Fatal outcomes of `Compile` (each is an `HZ_CORE_ASSERT(false, ...)`). -/
inductive CompileErr
  | tooManyShaders
  | compileFailure
  | linkFailure
  deriving DecidableEq

/-- Result of `Compile`: the event trace and either the program handle
stored into `m_RendererID` or the fatal assert that aborted construction. -/
structure CompileOut where
  events : List Event
  result : Except CompileErr Nat
  deriving DecidableEq

/-- Writes slot `idx` of the two-slot `glShaderIDs` array. -/
def setIdx (arr : Fin 2 → Nat) (idx v : Nat) : Fin 2 → Nat :=
  fun j => if j.val = idx then v else arr j

/-- Embeds the stage loop of `OpenGLShader::Compile`
(OpenGLShader.cpp:106-133): create, source and compile each stage; on
failure fetch the info log, delete the failing stage, log the diagnostic and
hit the fatal assert; on success attach the stage and record its id. -/
def compileStagesLoop (gl : GLSpec) (program : Nat) :
    List (Nat × List Char) → (Fin 2 → Nat) → Nat →
      List Event × Except CompileErr (Fin 2 → Nat)
  | [], arr, _ => ([], .ok arr)
  | (shaderType, src) :: rest, arr, idx =>
    let shaderID := 2 + idx
    let evs := [Event.createShader shaderType shaderID, Event.shaderSource shaderID src,
      Event.compileShader shaderID]
    if gl.compileOk shaderType src then
      let (evs', res) := compileStagesLoop gl program rest (setIdx arr idx shaderID) (idx + 1)
      (evs ++ [Event.attachShader program shaderID] ++ evs', res)
    else
      (evs ++ [Event.deleteShader shaderID, Event.coreError (gl.infoLog shaderType src)],
        .error .compileFailure)

/-- Embeds `OpenGLShader::Compile` (OpenGLShader.cpp:97-164).  `uninit` is
the indeterminate initial content of `glShaderIDs`; the final loops over that
array run over both slots whether or not they were written, exactly as the
C++ ranged `for` does. -/
def Compile (gl : GLSpec) (uninit : Fin 2 → Nat)
    (shaderSources : List (Nat × List Char)) : CompileOut :=
  let program := 1
  let ev0 := [Event.createProgram program]
  if shaderSources.length ≤ 2 then
    match compileStagesLoop gl program shaderSources uninit 0 with
    | (evs, .error e) => ⟨ev0 ++ evs, .error e⟩
    | (evs, .ok arr) =>
      if gl.linkOk then
        ⟨ev0 ++ evs ++ [Event.linkProgram program,
          Event.detachShader program (arr 0), Event.detachShader program (arr 1),
          Event.useProgram program], .ok program⟩
      else
        ⟨ev0 ++ evs ++ [Event.linkProgram program, Event.deleteProgram program,
          Event.deleteShader (arr 0), Event.deleteShader (arr 1),
          Event.coreError gl.linkLog], .error .linkFailure⟩
  else ⟨ev0, .error .tooManyShaders⟩

/-- Embeds `OpenGLShader::ReadFile` (OpenGLShader.cpp:52-69).  The file
system is a partial map from paths to contents; when the file cannot be
opened the failure is logged and the empty string is returned. -/
def ReadFile (fs : List Char → Option (List Char)) (filepath : List Char) :
    List Char × List Event :=
  match fs filepath with
  | some content => (content, [])
  | none => ([], [Event.fileOpenError filepath])

/-- Embeds the name extraction of `OpenGLShader::OpenGLShader(filepath)`
(OpenGLShader.cpp:28-33); `none` models an `std::out_of_range` from
`substr` (shown impossible in `extractName_isSome`). -/
def extractName (filepath : List Char) : Option (List Char) :=
  let lastSlash0 := findLastOf filepath ['/', '\\']
  let lastSlash := if lastSlash0 = NPOS then 0 else lastSlash0 + 1
  let lastDot := rfindChar filepath '.'
  let count := if lastDot = NPOS then usub filepath.length lastSlash
    else usub lastDot lastSlash
  substrE filepath lastSlash count

/-- Fatal outcomes of the file-based shader constructor. -/
inductive PipeErr
  | pp (e : PPError)
  | comp (e : CompileErr)
  | nameOutOfRange
  deriving DecidableEq

/-- Result of the file-based constructor: the event trace and either the
pair `(m_RendererID, m_Name)` or the fatal halt. -/
structure ShaderOut where
  events : List Event
  result : Except PipeErr (Nat × List Char)
  deriving DecidableEq

/-- Embeds `OpenGLShader::OpenGLShader(const std::string& filepath)`
(OpenGLShader.cpp:21-34): read the file, split stages, compile, then extract
the shader name from the path. -/
def OpenGLShaderCtor (fs : List Char → Option (List Char)) (gl : GLSpec)
    (uninit : Fin 2 → Nat) (filepath : List Char) : ShaderOut :=
  let read := ReadFile fs filepath
  match PreProcess read.1 with
  | .error e => ⟨read.2, .error (.pp e)⟩
  | .ok shaderSources =>
    let c := Compile gl uninit shaderSources
    match c.result with
    | .error e => ⟨read.2 ++ c.events, .error (.comp e)⟩
    | .ok prog =>
      match extractName filepath with
      | some nm => ⟨read.2 ++ c.events, .ok (prog, nm)⟩
      | none => ⟨read.2 ++ c.events, .error .nameOutOfRange⟩

/-- True exactly on the native compile calls
(`glCreateShader` / `glCompileShader`). -/
def isNativeCompileCall : Event → Bool
  | .createShader _ _ => true
  | .compileShader _ => true
  | _ => false

/-- The program bound (`glUseProgram`) after a trace, if any. -/
def finalBound (evs : List Event) : Option Nat :=
  evs.foldl (fun acc e => match e with | .useProgram p => some p | _ => acc) none

/-! ## Claims C1 and C3 through C6 -/

/-- C1: the spec claims that a marker line that is the last content of the
input yields the empty string for that stage.  The code instead reaches
`source.substr(nextLinePos, ...)` with `nextLinePos == std::string::npos`
(`find_first_not_of` finds no character after the final line break), and
`substr` throws `std::out_of_range`: no mapping is produced at all.  The
conditional `nextLinePos == npos ? source.size() - 1 : nextLinePos` on line
92 shows the case was meant to be handled, but it guards only the length
argument, not the position. -/
theorem C1_marker_at_end_throws_out_of_range :
    PreProcess (("#type vertex\n").toList) = .error .outOfRange := by decide

/-- C3 counterexample: two stages, the first compiles, the second fails.
Construction aborts and the failing stage (id 3) is deleted, but the
earlier-compiled stage (id 2, already attached) is never released,
contradicting the claim that every stage compiled earlier in the attempt is
also released. -/
theorem C3_counterexample :
    let out := Compile
      ⟨fun ty _ => ty == GL_VERTEX_SHADER, fun _ _ => ("err").toList, true, []⟩
      (fun _ => 0)
      [(GL_VERTEX_SHADER, ("A").toList), (GL_FRAGMENT_SHADER, ("B").toList)]
    out.result = .error .compileFailure ∧
    Event.compileShader 2 ∈ out.events ∧
    Event.attachShader 1 2 ∈ out.events ∧
    Event.deleteShader 3 ∈ out.events ∧
    ¬ Event.deleteShader 2 ∈ out.events := by decide

/-- C3 amended: when a stage fails native compilation, `Compile` deletes that
failing stage's unit, surfaces its diagnostic log, and aborts construction
with no program handle (no `glUseProgram` happens and the result carries the
fatal assert instead of a handle) — but stages compiled earlier in the same
attempt are NOT released: they stay attached to the abandoned program object
and no `glDeleteShader` is issued for them. -/
theorem C3_amended_stage_failure_cleanup
    (gl : GLSpec) (uninit : Fin 2 → Nat) (pre post : List (Nat × List Char))
    (ty : Nat) (src : List Char)
    (hlen : (pre ++ (ty, src) :: post).length ≤ 2)
    (hpre : ∀ p ∈ pre, gl.compileOk p.1 p.2 = true)
    (hfail : gl.compileOk ty src = false) :
    let out := Compile gl uninit (pre ++ (ty, src) :: post)
    out.result = .error .compileFailure ∧
    Event.deleteShader (2 + pre.length) ∈ out.events ∧
    Event.coreError (gl.infoLog ty src) ∈ out.events ∧
    (∀ p, Event.useProgram p ∉ out.events) ∧
    (∀ j, j < pre.length →
      Event.deleteShader (2 + j) ∉ out.events ∧ Event.attachShader 1 (2 + j) ∈ out.events) := by
  rcases pre with _ | ⟨⟨ty0, src0⟩, pre'⟩
  · have hp1 : post.length ≤ 1 := by
      simp at hlen
      omega
    simp only [List.nil_append]
    simp [Compile, compileStagesLoop, hfail, hp1]
  · rcases pre' with _ | ⟨p1, pre''⟩
    · have hp0 : post = [] := by
        rcases post with _ | ⟨q, post'⟩
        · rfl
        · exfalso
          simp at hlen
      subst hp0
      have h0 : gl.compileOk ty0 src0 = true := hpre (ty0, src0) (by simp)
      simp only [List.cons_append, List.nil_append]
      simp [Compile, compileStagesLoop, hfail, h0, setIdx]
    · simp at hlen

/-- Witness for the amended C3: one earlier stage compiles, the next fails;
the failing unit (id 3) is deleted, the earlier one (id 2) is not. -/
theorem C3_amended_witness :
    let out := Compile
      ⟨fun ty _ => ty == GL_VERTEX_SHADER, fun _ _ => ("err").toList, true, []⟩
      (fun _ => 0)
      ([(GL_VERTEX_SHADER, ("A").toList)] ++ (GL_FRAGMENT_SHADER, ("B").toList) :: [])
    out.result = .error .compileFailure ∧
    Event.deleteShader (2 + [(GL_VERTEX_SHADER, ("A").toList)].length) ∈ out.events ∧
    Event.coreError (("err").toList) ∈ out.events ∧
    (∀ p, Event.useProgram p ∉ out.events) ∧
    (∀ j, j < [(GL_VERTEX_SHADER, ("A").toList)].length →
      Event.deleteShader (2 + j) ∉ out.events ∧ Event.attachShader 1 (2 + j) ∈ out.events) :=
  C3_amended_stage_failure_cleanup
    ⟨fun ty _ => ty == GL_VERTEX_SHADER, fun _ _ => ("err").toList, true, []⟩
    (fun _ => 0) [(GL_VERTEX_SHADER, ("A").toList)] [] GL_FRAGMENT_SHADER (("B").toList)
    (by decide) (by decide) (by decide)

/-- C5: when every stage compiles but the native link fails, `Compile`
releases the program object and every stage unit created in the attempt,
surfaces the link diagnostic, and aborts construction without setting a
program handle (the result carries the fatal assert and no `glUseProgram`
is issued). -/
theorem C5_link_failure_cleanup
    (gl : GLSpec) (uninit : Fin 2 → Nat) (srcs : List (Nat × List Char))
    (hlen : srcs.length ≤ 2)
    (hok : ∀ p ∈ srcs, gl.compileOk p.1 p.2 = true)
    (hlink : gl.linkOk = false) :
    let out := Compile gl uninit srcs
    out.result = .error .linkFailure ∧
    Event.deleteProgram 1 ∈ out.events ∧
    Event.coreError gl.linkLog ∈ out.events ∧
    (∀ j, j < srcs.length → Event.deleteShader (2 + j) ∈ out.events) ∧
    (∀ p, Event.useProgram p ∉ out.events) := by
  rcases srcs with _ | ⟨⟨ty0, src0⟩, _ | ⟨⟨ty1, src1⟩, _ | ⟨c, rest⟩⟩⟩
  · simp [Compile, compileStagesLoop, hlink]
  · have h0 : gl.compileOk ty0 src0 = true := hok (ty0, src0) (by simp)
    simp [Compile, compileStagesLoop, hlink, h0, setIdx]
  · have h0 : gl.compileOk ty0 src0 = true := hok (ty0, src0) (by simp)
    have h1 : gl.compileOk ty1 src1 = true := hok (ty1, src1) (by simp)
    simp [Compile, compileStagesLoop, hlink, h0, h1, setIdx]
    try (intro j hj; interval_cases j <;> simp)
  · simp at hlen

/-- Witness for C5: two compiling stages and a failing link; the program and
both stage units (ids 2 and 3) are deleted and no program is bound. -/
theorem C5_witness :
    let out := Compile ⟨fun _ _ => true, fun _ _ => [], false, ("linkerr").toList⟩
      (fun _ => 0) [(GL_VERTEX_SHADER, ("A").toList), (GL_FRAGMENT_SHADER, ("B").toList)]
    out.result = .error .linkFailure ∧
    Event.deleteProgram 1 ∈ out.events ∧
    Event.coreError (("linkerr").toList) ∈ out.events ∧
    (∀ j, j < [(GL_VERTEX_SHADER, ("A").toList), (GL_FRAGMENT_SHADER, ("B").toList)].length →
      Event.deleteShader (2 + j) ∈ out.events) ∧
    (∀ p, Event.useProgram p ∉ out.events) :=
  C5_link_failure_cleanup ⟨fun _ _ => true, fun _ _ => [], false, ("linkerr").toList⟩
    (fun _ => 0) [(GL_VERTEX_SHADER, ("A").toList), (GL_FRAGMENT_SHADER, ("B").toList)]
    (by decide) (by decide) (by decide)

/-- C6: when every stage compiles and the link succeeds, `Compile` detaches
(but does not delete) each stage unit from the program, stores the linked
program (handle 1) as the shader's `m_RendererID`, and — through the `Bind()`
call at the end of `Compile` — leaves that program bound as the currently
active program. -/
theorem C6_link_success_detach_store_bind
    (gl : GLSpec) (uninit : Fin 2 → Nat) (srcs : List (Nat × List Char))
    (hlen : srcs.length ≤ 2)
    (hok : ∀ p ∈ srcs, gl.compileOk p.1 p.2 = true)
    (hlink : gl.linkOk = true) :
    let out := Compile gl uninit srcs
    out.result = .ok 1 ∧
    (∀ j, j < srcs.length → Event.detachShader 1 (2 + j) ∈ out.events) ∧
    (∀ id, Event.deleteShader id ∉ out.events) ∧
    finalBound out.events = some 1 := by
  rcases srcs with _ | ⟨⟨ty0, src0⟩, _ | ⟨⟨ty1, src1⟩, _ | ⟨c, rest⟩⟩⟩
  · simp [Compile, compileStagesLoop, hlink, finalBound]
  · have h0 : gl.compileOk ty0 src0 = true := hok (ty0, src0) (by simp)
    simp [Compile, compileStagesLoop, hlink, h0, setIdx, finalBound]
  · have h0 : gl.compileOk ty0 src0 = true := hok (ty0, src0) (by simp)
    have h1 : gl.compileOk ty1 src1 = true := hok (ty1, src1) (by simp)
    simp [Compile, compileStagesLoop, hlink, h0, h1, setIdx, finalBound]
    try (intro j hj; interval_cases j <;> simp)
  · simp at hlen

/-- Witness for C6: two compiling stages and a successful link; both units
are detached, none deleted, the handle is 1 and program 1 ends up bound. -/
theorem C6_witness :
    let out := Compile ⟨fun _ _ => true, fun _ _ => [], true, []⟩
      (fun _ => 0) [(GL_VERTEX_SHADER, ("A").toList), (GL_FRAGMENT_SHADER, ("B").toList)]
    out.result = .ok 1 ∧
    (∀ j, j < [(GL_VERTEX_SHADER, ("A").toList), (GL_FRAGMENT_SHADER, ("B").toList)].length →
      Event.detachShader 1 (2 + j) ∈ out.events) ∧
    (∀ id, Event.deleteShader id ∉ out.events) ∧
    finalBound out.events = some 1 :=
  C6_link_success_detach_store_bind ⟨fun _ _ => true, fun _ _ => [], true, []⟩
    (fun _ => 0) [(GL_VERTEX_SHADER, ("A").toList), (GL_FRAGMENT_SHADER, ("B").toList)]
    (by decide) (by decide) (by decide)

/-! ## Claims C4 and C9 : the constructor pipeline -/

theorem scanBack_cases (p : Nat → Bool) (i : Nat) :
    scanBack p i = NPOS ∨ (scanBack p i ≤ i ∧ p (scanBack p i) = true) := by
  induction i with
  | zero =>
    by_cases h : p 0 = true
    · right
      simp [scanBack, h]
    · left
      simp [scanBack, h]
  | succ i ih =>
    by_cases h : p (i + 1) = true
    · right
      simp [scanBack, h]
    · have hred : scanBack p (i + 1) = scanBack p i := by simp [scanBack, h]
      rw [hred]
      rcases ih with h2 | ⟨h2, h3⟩
      · left
        exact h2
      · right
        exact ⟨by omega, h3⟩

theorem findLastOf_cases (s cs : List Char) :
    findLastOf s cs = NPOS ∨ findLastOf s cs < s.length := by
  rcases hl : s.length with _ | n
  · left
    unfold findLastOf
    rw [hl]
  · unfold findLastOf
    rw [hl]
    show scanBack (fun i => memAt s cs i) n = NPOS ∨
      scanBack (fun i => memAt s cs i) n < n + 1
    rcases scanBack_cases (fun i => memAt s cs i) n with h | ⟨h1, h2⟩
    · left
      exact h
    · right
      omega

theorem extractName_isSome (filepath : List Char) : (extractName filepath).isSome = true := by
  simp only [extractName, substrE]
  by_cases h : findLastOf filepath ['/', '\\'] = NPOS
  · rw [if_pos h, if_pos (by omega)]
    rfl
  · rcases findLastOf_cases filepath ['/', '\\'] with h2 | h2
    · exact absurd h2 h
    · rw [if_neg h, if_pos (by omega)]
      rfl

/-- Inversion for `scanFrom`: the result is either `NPOS` with no hit in the
scanned range, or the first index in the range satisfying the predicate. -/
theorem scanFrom_inv (p : Nat → Bool) (fuel : Nat) :
    ∀ i, (scanFrom p i fuel = NPOS ∧ ∀ j, i ≤ j → j < i + fuel → p j = false) ∨
      (i ≤ scanFrom p i fuel ∧ scanFrom p i fuel < i + fuel ∧
        p (scanFrom p i fuel) = true ∧
        ∀ j, i ≤ j → j < scanFrom p i fuel → p j = false) := by
  induction fuel with
  | zero => intro i; exact Or.inl ⟨rfl, fun j h1 h2 => absurd h1 (by omega)⟩
  | succ fuel ih =>
    intro i
    by_cases hpi : p i = true
    · have hr : scanFrom p i (fuel + 1) = i := by simp [scanFrom, hpi]
      rw [hr]
      exact Or.inr ⟨le_rfl, by omega, hpi, fun j h1 h2 => absurd h1 (by omega)⟩
    · have hpif : p i = false := by
        rcases hb : p i with _ | _
        · rfl
        · exact absurd hb hpi
      have hr : scanFrom p i (fuel + 1) = scanFrom p (i + 1) fuel := by
        simp [scanFrom, hpif]
      rw [hr]
      rcases ih (i + 1) with ⟨h1, h2⟩ | ⟨h1, h2, h3, h4⟩
      · refine Or.inl ⟨h1, fun j hj1 hj2 => ?_⟩
        rcases Nat.eq_or_lt_of_le hj1 with he | hl
        · exact he ▸ hpif
        · exact h2 j (by omega) (by omega)
      · refine Or.inr ⟨by omega, by omega, h3, fun j hj1 hj2 => ?_⟩
        rcases Nat.eq_or_lt_of_le hj1 with he | hl
        · exact he ▸ hpif
        · exact h4 j (by omega) hj2

/-- No occurrence of `needle` starts strictly before the result of `find`. -/
theorem strFind_min {s needle : List Char} {start r : Nat} (h : strFind s needle start = r)
    {j : Nat} (hj1 : start ≤ j) (hj2 : j < r) (hjL : j ≤ s.length) :
    needle.isPrefixOf (s.drop j) = false := by
  unfold strFind at h
  by_cases hs : start ≤ s.length
  · rw [if_pos hs] at h
    have hinv := scanFrom_inv (fun i => needle.isPrefixOf (s.drop i)) (s.length + 1 - start) start
    rw [h] at hinv
    rcases hinv with ⟨h1, h2⟩ | ⟨h1, h2, h3, h4⟩
    · exact h2 j hj1 (by omega)
    · exact h4 j hj1 hj2
  · rw [if_neg hs] at h
    exact absurd hjL (by omega)

/-- A non-`NPOS` result of `find` is an occurrence of `needle` at or after
`start`, within the string. -/
theorem strFind_mem {s needle : List Char} {start r : Nat}
    (h : strFind s needle start = r) (hr : ¬ r = NPOS) :
    start ≤ r ∧ r ≤ s.length ∧ needle.isPrefixOf (s.drop r) = true := by
  unfold strFind at h
  by_cases hs : start ≤ s.length
  · rw [if_pos hs] at h
    have hinv := scanFrom_inv (fun i => needle.isPrefixOf (s.drop i)) (s.length + 1 - start) start
    rw [h] at hinv
    rcases hinv with ⟨h1, _⟩ | ⟨h1, h2, h3, _⟩
    · exact absurd h1 hr
    · exact ⟨h1, by omega, h3⟩
  · rw [if_neg hs] at h
    exact absurd h.symm hr

/-- A non-`NPOS` result of `find_first_of` is a position of one of `cs`. -/
theorem findFirstOf_mem {s cs : List Char} {start r : Nat}
    (h : findFirstOf s cs start = r) (hr : ¬ r = NPOS) :
    start ≤ r ∧ r ≤ s.length ∧ memAt s cs r = true := by
  unfold findFirstOf at h
  by_cases hs : start ≤ s.length
  · rw [if_pos hs] at h
    have hinv := scanFrom_inv (fun i => memAt s cs i) (s.length + 1 - start) start
    rw [h] at hinv
    rcases hinv with ⟨h1, _⟩ | ⟨h1, h2, h3, _⟩
    · exact absurd h1 hr
    · exact ⟨h1, by omega, h3⟩
  · rw [if_neg hs] at h
    exact absurd h.symm hr

/-- Every position strictly before the result of `find_first_not_of` fails
its predicate. -/
theorem findFirstNotOf_min {s cs : List Char} {start r : Nat}
    (h : findFirstNotOf s cs start = r) {j : Nat} (hj1 : start ≤ j) (hj2 : j < r)
    (hjL : j ≤ s.length) : notMemAt s cs j = false := by
  unfold findFirstNotOf at h
  by_cases hs : start ≤ s.length
  · rw [if_pos hs] at h
    have hinv := scanFrom_inv (fun i => notMemAt s cs i) (s.length + 1 - start) start
    rw [h] at hinv
    rcases hinv with ⟨h1, h2⟩ | ⟨h1, h2, h3, h4⟩
    · exact h2 j hj1 (by omega)
    · exact h4 j hj1 hj2
  · rw [if_neg hs] at h
    exact absurd hjL (by omega)

/-- A successful `substr` means the position was in range and gives the
clamped take/drop value. -/
theorem substrE_eq_some {s v : List Char} {a b : Nat} (h : substrE s a b = some v) :
    a ≤ s.length ∧ v = (s.drop a).take b := by
  unfold substrE at h
  by_cases ha : a ≤ s.length
  · rw [if_pos ha] at h
    exact ⟨ha, (Option.some.inj h).symm⟩
  · rw [if_neg ha] at h
    exact absurd h (by simp)

/-- The characters of a token occurrence. -/
theorem token_char (s : List Char) (q d : Nat)
    (htok : typeToken.isPrefixOf (s.drop q) = true) (hd : d < 5) :
    s[q + d]? = typeToken[d]? := by
  have h := getElemQ_of_isPrefixOf htok d (by
    have h5 : typeToken.length = 5 := rfl
    omega)
  rw [List.getElem?_drop] at h
  exact h

/-- No character of a token occurrence is a line break. -/
theorem token_char_not_crlf (s : List Char) (q d : Nat)
    (htok : typeToken.isPrefixOf (s.drop q) = true) (hd : d < 5) :
    memAt s crlf (q + d) = false := by
  unfold memAt
  rw [token_char s q d htok hd]
  interval_cases d <;> decide

/-- A position holding `'#'` satisfies the `find_first_not_of "\r\n"`
predicate. -/
theorem notMemAt_hash (s : List Char) (j : Nat) (h : s[j]? = some '#') :
    notMemAt s crlf j = true := by
  unfold notMemAt
  rw [h]
  decide

/-- A recognized stage name is one of the three literal names. -/
theorem stfs_some_cases {ty : List Char} {t : Nat} (h : ShaderTypeFromString ty = some t) :
    ty = ("vertex").toList ∨ ty = ("fragment").toList ∨ ty = ("pixel").toList := by
  unfold ShaderTypeFromString at h
  split at h
  · next h1 => exact Or.inl h1
  · next h1 =>
    split at h
    · next h2 => exact Or.inr h2
    · next h2 => simp at h

/-- A recognized stage name contains no `'#'`. -/
theorem stfs_no_hash {ty : List Char} {t : Nat} (h : ShaderTypeFromString ty = some t)
    (d : Nat) : ¬ ty[d]? = some '#' := by
  intro hc
  have hmem := List.getElem?_mem hc
  rcases stfs_some_cases h with h1 | h1 | h1 <;>
    (subst h1; exact absurd hmem (by decide))

/-- A recognized stage name does not start with `'t'`. -/
theorem stfs_head_not_t {ty : List Char} {t : Nat} (h : ShaderTypeFromString ty = some t) :
    ¬ ty[0]? = some 't' := by
  intro hc
  rcases stfs_some_cases h with h1 | h1 | h1 <;>
    (subst h1; exact absurd hc (by decide))

/-- The stage-name argument of a marker occurrence at position `p`: the text
of the marker's line after `"#type "` up to the first line break at or after
`p` (or to the end of input when no line break follows) — exactly the string
the `substr` on OpenGLShader.cpp:85 would extract for this occurrence,
including the `size_t` wrap-around of `eol - begin` and `substr`'s clamping. -/
def nameAt (source : List Char) (p : Nat) : List Char :=
  (source.drop (p + 6)).take (usub (findFirstOf source crlf p) (p + 6))

/-- If the `PreProcess` loop returns a stage map, then every `"#type"`
occurrence at or after the scan position carries a recognized stage-name
argument: the scan visits the first occurrence, a recognized name's line
cannot contain a further occurrence before the next scan position, and an
unrecognized name makes the iteration end in one of its fatal errors. -/
theorem preProcessLoop_ok_markers (source : List Char) (hL : source.length < NPOS) :
    ∀ fuel pos acc m, preProcessLoop source pos acc fuel = Except.ok m →
      (pos = NPOS ∨ typeToken.isPrefixOf (source.drop pos) = true) →
      ∀ p, pos ≤ p → typeToken.isPrefixOf (source.drop p) = true →
        ¬ ShaderTypeFromString (nameAt source p) = none := by
  intro fuel
  induction fuel with
  | zero =>
    intro pos acc m hok
    exact absurd hok (by simp [preProcessLoop])
  | succ fuel ih =>
    intro pos acc m hok hposinv p hpp htokp
    have htk : typeToken.length = 5 := rfl
    have hpL : p + 5 ≤ source.length := by
      have hlen := length_le_of_isPrefixOf htokp
      rw [List.length_drop] at hlen
      omega
    by_cases hpos : pos = NPOS
    · exact absurd hpL (by omega)
    · have htokpos : typeToken.isPrefixOf (source.drop pos) = true :=
        hposinv.resolve_left hpos
      simp only [preProcessLoop] at hok
      rw [if_neg hpos] at hok
      split at hok
      · exact absurd hok (by simp)
      · rename_i heolN
        split at hok
        · exact absurd hok (by simp)
        · rename_i ty hsub
          split at hok
          · exact absurd hok (by simp)
          · rename_i code hval
            split at hok
            · exact absurd hok (by simp)
            · rename_i t hst
              obtain ⟨heol1, heol2, heol3⟩ := findFirstOf_mem rfl heolN
              obtain ⟨hsub1, hsub2⟩ := substrE_eq_some hsub
              by_cases hpeq : p = pos
              · subst hpeq
                have hname : nameAt source p = ty := by
                  rw [htk] at hsub2
                  have h6 : p + 5 + 1 = p + 6 := rfl
                  rw [h6] at hsub2
                  exact hsub2.symm
                rw [hname, hst]
                simp
              · have hplt : pos < p := lt_of_le_of_ne hpp (Ne.symm hpeq)
                have hge : strFind source typeToken
                    (findFirstNotOf source crlf (findFirstOf source crlf pos)) ≤ p := by
                  by_contra hltq
                  push_neg at hltq
                  rcases Nat.lt_or_ge p (pos + 5) with h1 | h1
                  · -- p overlaps the token "#type" at pos: character clash
                    have hc1 : source[p + 0]? = some '#' := by
                      rw [token_char source p 0 htokp (by omega)]
                      decide
                    have hc2 : source[pos + (p - pos)]? = typeToken[p - pos]? :=
                      token_char source pos (p - pos) htokpos (by omega)
                    have hpp0 : pos + (p - pos) = p + 0 := by omega
                    rw [hpp0, hc1] at hc2
                    rcases (show p - pos = 1 ∨ p - pos = 2 ∨ p - pos = 3 ∨ p - pos = 4 by
                        omega) with hq | hq | hq | hq <;>
                      (rw [hq] at hc2; exact absurd hc2 (by decide))
                  · rcases Nat.eq_or_lt_of_le h1 with h2 | h2
                    · -- p = pos + 5: the extracted name starts with 't'
                      have heol7 : pos + 7 ≤ findFirstOf source crlf pos := by
                        by_contra hlt7
                        push_neg at hlt7
                        obtain ⟨k, hk7, hkeq⟩ : ∃ k, k < 7 ∧
                            findFirstOf source crlf pos = pos + k :=
                          ⟨findFirstOf source crlf pos - pos, by omega, by omega⟩
                        have hmm := heol3
                        rw [hkeq] at hmm
                        rcases (show k < 5 ∨ k = 5 ∨ k = 6 by omega) with hk | hk | hk
                        · rw [token_char_not_crlf source pos k htokpos hk] at hmm
                          exact Bool.noConfusion hmm
                        · subst hk
                          have hidx : pos + 5 = p + 0 := by omega
                          rw [hidx, token_char_not_crlf source p 0 htokp (by omega)] at hmm
                          exact Bool.noConfusion hmm
                        · subst hk
                          have hidx : pos + 6 = p + 1 := by omega
                          rw [hidx, token_char_not_crlf source p 1 htokp (by omega)] at hmm
                          exact Bool.noConfusion hmm
                      have hk0 : usub (findFirstOf source crlf pos)
                          (pos + typeToken.length + 1) =
                          findFirstOf source crlf pos - (pos + 6) := by
                        rw [htk]
                        have h6 : pos + 5 + 1 = pos + 6 := rfl
                        rw [h6]
                        exact usub_of_le _ _ (by omega)
                          (by have := NPOS_lt_SIZE_MOD; omega)
                      have hty0 : ty[0]? = some 't' := by
                        rw [hsub2, hk0, List.getElem?_take, if_pos (by omega),
                          List.getElem?_drop]
                        have hidx : pos + typeToken.length + 1 + 0 = p + 1 := by
                          rw [htk]
                          omega
                        rw [hidx, token_char source p 1 htokp (by omega)]
                        decide
                      exact absurd hty0 (stfs_head_not_t hst)
                    · rcases Nat.lt_or_ge p (findFirstOf source crlf pos) with h3 | h3
                      · -- pos + 6 ≤ p < eol: the extracted name contains '#'
                        have hk0 : usub (findFirstOf source crlf pos)
                            (pos + typeToken.length + 1) =
                            findFirstOf source crlf pos - (pos + 6) := by
                          rw [htk]
                          have h6 : pos + 5 + 1 = pos + 6 := rfl
                          rw [h6]
                          exact usub_of_le _ _ (by omega)
                            (by have := NPOS_lt_SIZE_MOD; omega)
                        have htyd : ty[p - (pos + 6)]? = some '#' := by
                          rw [hsub2, hk0, List.getElem?_take, if_pos (by omega),
                            List.getElem?_drop]
                          have hidx : pos + typeToken.length + 1 + (p - (pos + 6)) =
                              p + 0 := by
                            rw [htk]
                            omega
                          rw [hidx, token_char source p 0 htokp (by omega)]
                          decide
                        exact absurd htyd (stfs_no_hash hst _)
                      · rcases Nat.lt_or_ge p
                            (findFirstNotOf source crlf (findFirstOf source crlf pos)) with
                          h4 | h4
                        · -- eol ≤ p < nextLinePos: '#' cannot be a line break
                          have hnm := findFirstNotOf_min rfl (by omega) h4 (by omega)
                          have hc1 : source[p]? = some '#' := by
                            have h0 := token_char source p 0 htokp (by omega)
                            simp only [Nat.add_zero] at h0
                            rw [h0]
                            decide
                          have hcontra := notMemAt_hash source p hc1
                          rw [hnm] at hcontra
                          exact Bool.noConfusion hcontra
                        · -- nextLinePos ≤ p < pos': contradicts find minimality
                          have hfm := strFind_min rfl (by omega) hltq (by omega)
                          rw [hfm] at htokp
                          exact Bool.noConfusion htokp
                have hinv' : strFind source typeToken
                      (findFirstNotOf source crlf (findFirstOf source crlf pos)) = NPOS ∨
                    typeToken.isPrefixOf (source.drop (strFind source typeToken
                      (findFirstNotOf source crlf (findFirstOf source crlf pos)))) = true := by
                  by_cases hn : strFind source typeToken
                      (findFirstNotOf source crlf (findFirstOf source crlf pos)) = NPOS
                  · exact Or.inl hn
                  · exact Or.inr (strFind_mem rfl hn).2.2
                exact ih _ (mapSet acc t code) m hok hinv' p hge htokp

/-- If `PreProcess` succeeds on a source, every `"#type"` occurrence in it
carries a recognized stage-name argument. -/
theorem preProcess_ok_markers (source : List Char) (hL : source.length < NPOS)
    {m : List (Nat × List Char)} (h : PreProcess source = Except.ok m)
    (p : Nat) (htok : typeToken.isPrefixOf (source.drop p) = true) :
    ¬ ShaderTypeFromString (nameAt source p) = none := by
  have hpL : p + 5 ≤ source.length := by
    have hlen := length_le_of_isPrefixOf htok
    rw [List.length_drop] at hlen
    have htk : typeToken.length = 5 := rfl
    omega
  unfold PreProcess at h
  have hp0 : strFind source typeToken 0 ≤ p := by
    by_contra hlt
    push_neg at hlt
    have hmin := strFind_min rfl (Nat.zero_le p) hlt (by omega)
    rw [hmin] at htok
    exact Bool.noConfusion htok
  have hinv : strFind source typeToken 0 = NPOS ∨
      typeToken.isPrefixOf (source.drop (strFind source typeToken 0)) = true := by
    by_cases hn : strFind source typeToken 0 = NPOS
    · exact Or.inl hn
    · exact Or.inr (strFind_mem rfl hn).2.2
  exact preProcessLoop_ok_markers source hL (source.length + 2) _ [] m h hinv p hp0 htok

/-- C4: for every file system, graphics behaviour and path, if the source
text read for the shader contains a stage marker — an occurrence of the
`"#type"` token — whose stage-name argument (the remainder of the marker's
line, as the file format defines it) is not one of the recognized names,
then the pipeline halts fatally during `PreProcess` and the constructor's
event trace contains no `glCreateShader` and no `glCompileShader` call:
`PreProcess` issues no graphics calls and `Compile` is never reached. -/
theorem C4_unknown_stage_halts_before_compile
    (fs : List Char → Option (List Char)) (gl : GLSpec) (uninit : Fin 2 → Nat)
    (filepath : List Char) (p : Nat)
    (hL : (ReadFile fs filepath).1.length < NPOS)
    (htok : typeToken.isPrefixOf ((ReadFile fs filepath).1.drop p) = true)
    (hbad : ShaderTypeFromString (nameAt (ReadFile fs filepath).1 p) = none) :
    let out := OpenGLShaderCtor fs gl uninit filepath
    (∃ e, out.result = .error (.pp e)) ∧
    out.events.filter (fun e => isNativeCompileCall e) = [] := by
  have herr : ∃ e, PreProcess (ReadFile fs filepath).1 = .error e := by
    rcases hres : PreProcess (ReadFile fs filepath).1 with e | m
    · exact ⟨e, rfl⟩
    · exact absurd hbad (preProcess_ok_markers (ReadFile fs filepath).1 hL hres p htok)
  obtain ⟨e, herr⟩ := herr
  simp only [OpenGLShaderCtor, herr]
  refine ⟨⟨e, rfl⟩, ?_⟩
  rcases hf : fs filepath with _ | c <;> simp [ReadFile, hf, isNativeCompileCall]

/-- Witness for C4: a source whose (only) marker, at position 0, names the
unrecognized stage `"foo"`. -/
theorem C4_witness :
    let out := OpenGLShaderCtor (fun _ => some (("#type foo\nxyz").toList))
      ⟨fun _ _ => true, fun _ _ => [], true, []⟩ (fun _ => 0) (("a.glsl").toList)
    (∃ e, out.result = .error (.pp e)) ∧
    out.events.filter (fun e => isNativeCompileCall e) = [] :=
  C4_unknown_stage_halts_before_compile _ _ _ _ 0 (by decide) (by decide) (by decide)

example : PreProcess (("#type vertex\nA\n#type foo\n").toList) = .error .outOfRange := by
  decide

example : PreProcess (("#type foo").toList) = .error .syntaxError := by decide

/-- C9: when the file cannot be opened, `ReadFile` logs the failure and
returns the empty string, and construction proceeds with that empty source
instead of aborting: `PreProcess` of the empty string yields an empty stage
map, `Compile` runs on it, and (when the native link of the empty program
succeeds) the constructor completes with a program handle and the name
extracted from the path. -/
theorem C9_file_not_found_degrades
    (fs : List Char → Option (List Char)) (gl : GLSpec) (uninit : Fin 2 → Nat)
    (filepath : List Char)
    (hfs : fs filepath = none)
    (hlink : gl.linkOk = true) :
    let out := OpenGLShaderCtor fs gl uninit filepath
    (ReadFile fs filepath).1 = [] ∧
    Event.fileOpenError filepath ∈ out.events ∧
    PreProcess [] = .ok [] ∧
    ∃ nm, extractName filepath = some nm ∧ out.result = .ok (1, nm) := by
  have hread : ReadFile fs filepath = ([], [Event.fileOpenError filepath]) := by
    simp [ReadFile, hfs]
  have hpp : PreProcess ([] : List Char) = .ok [] := by decide
  have hcomp : Compile gl uninit [] = ⟨[Event.createProgram 1, Event.linkProgram 1,
      Event.detachShader 1 (uninit 0), Event.detachShader 1 (uninit 1),
      Event.useProgram 1], .ok 1⟩ := by
    simp [Compile, compileStagesLoop, hlink]
  have hname := extractName_isSome filepath
  rcases hx : extractName filepath with _ | nm
  · rw [hx] at hname
    simp at hname
  · simp only [OpenGLShaderCtor, hread, hpp, hcomp, hx]
    simp

/-- Witness for C9: a file system with no files; construction still yields a
program handle and the name `"Texture"`. -/
theorem C9_witness :
    let out := OpenGLShaderCtor (fun _ => none) ⟨fun _ _ => true, fun _ _ => [], true, []⟩
      (fun _ => 0) (("assets/Texture.glsl").toList)
    (ReadFile (fun _ => none) (("assets/Texture.glsl").toList)).1 = [] ∧
    Event.fileOpenError (("assets/Texture.glsl").toList) ∈ out.events ∧
    PreProcess [] = .ok [] ∧
    ∃ nm, extractName (("assets/Texture.glsl").toList) = some nm ∧
      out.result = .ok (1, nm) :=
  C9_file_not_found_degrades _ _ _ _ rfl rfl

/-! ## Claim C10 : name extraction from the file path -/

theorem usub_wrap (a b : Nat) (hab : a < b) (hb : b ≤ a + SIZE_MOD) :
    usub a b = a + SIZE_MOD - b := by
  unfold usub
  apply Nat.mod_eq_of_lt
  omega

theorem NPOS_succ_eq : NPOS + 1 = SIZE_MOD := by decide

theorem rfindChar_cases (s : List Char) (c : Char) :
    rfindChar s c = NPOS ∨ rfindChar s c < s.length := by
  unfold rfindChar
  exact findLastOf_cases s [c]

/-- The original claim C10, read literally: the name is the substring of the
path strictly between the last path separator and the last `'.'`; with no
separator it starts at the beginning, with no `'.'` it runs to the end. -/
def nameFromClaim (p : List Char) : List Char :=
  let lastSlash0 := findLastOf p ['/', '\\']
  let start := if lastSlash0 = NPOS then 0 else lastSlash0 + 1
  let lastDot := rfindChar p '.'
  if lastDot = NPOS then p.drop start
  else (p.drop start).take (lastDot - start)

/-- C10 counterexample: for the path `"./Texture"` the last `'.'` (index 0)
precedes the last separator (index 1), so the claim's "substring strictly
between" is empty — but the code's `size_t` subtraction
`lastDot - lastSlash` wraps around, `substr` clamps, and the extracted name
is `"Texture"`. -/
theorem C10_counterexample :
    extractName (("./Texture").toList) = some (("Texture").toList) ∧
    nameFromClaim (("./Texture").toList) = [] ∧
    ¬ extractName (("./Texture").toList) =
      some (nameFromClaim (("./Texture").toList)) := by decide

/-- The amended claim C10: as the original, except that when the path
contains a `'.'` whose last occurrence is at or before the last separator,
the name extends from just after the separator to the end of the path (the
`size_t` subtraction `lastDot - lastSlash` wraps around and `substr` clamps
the huge count to the rest of the string). -/
def nameFromAmendedClaim (p : List Char) : List Char :=
  let lastSlash0 := findLastOf p ['/', '\\']
  let start := if lastSlash0 = NPOS then 0 else lastSlash0 + 1
  let lastDot := rfindChar p '.'
  if lastDot = NPOS ∨ lastDot < start then p.drop start
  else (p.drop start).take (lastDot - start)

/-- C10 amended: for every path that fits a `size_t` with room to spare, the
name stored by the file-based constructor is `nameFromAmendedClaim`: the
substring strictly between the last separator and the last `'.'`, except
that a last `'.'` at or before the last separator is ignored and the name
runs to the end of the path. -/
theorem C10_amended_name_extraction (p : List Char) (hlen : 2 * p.length < SIZE_MOD) :
    extractName p = some (nameFromAmendedClaim p) := by
  have hrel := NPOS_succ_eq
  have hN0 : 0 < NPOS := by decide
  have hLp : p.length < NPOS := by omega
  simp only [extractName, nameFromAmendedClaim, substrE]
  rcases findLastOf_cases p ['/', '\\'] with hS | hS
  · rw [if_pos hS]
    have h0 : (0 : Nat) ≤ p.length := by omega
    rcases rfindChar_cases p '.' with hD | hD
    · rw [if_pos hD, if_pos (Or.inl hD), if_pos h0]
      rw [usub_of_le _ _ (by omega) (by omega)]
      rw [List.take_of_length_le (le_of_eq (List.length_drop 0 p))]
    · have hDne : ¬ rfindChar p '.' = NPOS := by omega
      rw [if_neg hDne, if_pos h0]
      have hnotlt : ¬ (rfindChar p '.' = NPOS ∨ rfindChar p '.' < 0) := by
        simp
        omega
      rw [if_neg hnotlt]
      rw [usub_of_le _ _ (by omega) (by omega)]
  · have hSne : ¬ findLastOf p ['/', '\\'] = NPOS := by omega
    rw [if_neg hSne]
    have hs1 : findLastOf p ['/', '\\'] + 1 ≤ p.length := by omega
    rw [if_pos hs1]
    rcases rfindChar_cases p '.' with hD | hD
    · rw [if_pos hD, if_pos (Or.inl hD)]
      rw [usub_of_le _ _ (by omega) (by omega)]
      rw [List.take_of_length_le (le_of_eq (List.length_drop _ p))]
    · have hDne : ¬ rfindChar p '.' = NPOS := by omega
      rw [if_neg hDne]
      by_cases hlt : rfindChar p '.' < findLastOf p ['/', '\\'] + 1
      · rw [if_pos (Or.inr hlt)]
        rw [usub_wrap _ _ hlt (by omega)]
        rw [List.take_of_length_le (by rw [List.length_drop]; omega)]
      · rw [if_neg (by simp; omega)]
        rw [usub_of_le _ _ (by omega) (by omega)]

/-- Witness for the amended C10: `"assets/Texture.glsl"` yields the name
`"Texture"`. -/
theorem C10_witness :
    2 * (("assets/Texture.glsl").toList).length < SIZE_MOD ∧
    extractName (("assets/Texture.glsl").toList) =
      some (nameFromAmendedClaim (("assets/Texture.glsl").toList)) :=
  ⟨by decide, C10_amended_name_extraction _ (by decide)⟩

example : extractName (("assets/Texture.glsl").toList) = some (("Texture").toList) := by
  decide

example : extractName (("Texture").toList) = some (("Texture").toList) := by decide

example : extractName (("dir\\file").toList) = some (("file").toList) := by decide

/-! ## Claim C8 : uniform uploads

The upload functions (OpenGLShader.cpp:211-276) call
`glGetUniformLocation(m_RendererID, name)` and push the value with a typed
`glUniform*` call; they check nothing, log nothing and touch no member of
the shader object.  The native side of the contract is modelled from the
spec: "Resolution failure (name not found) is silently a no-op at the native
level — this pipeline does not validate existence and propagates no error." -/

/-- An IEEE-754 float value carried through to the driver untouched (no
arithmetic is performed on floats anywhere in this code), modelled by its
bit pattern. -/
structure GLfloat where
  bits : Nat
  deriving DecidableEq

/-- Models `glm::vec2`. -/
structure Vec2 where
  x : GLfloat
  y : GLfloat
  deriving DecidableEq

/-- Models `glm::vec3`. -/
structure Vec3 where
  x : GLfloat
  y : GLfloat
  z : GLfloat
  deriving DecidableEq

/-- Models `glm::vec4`. -/
structure Vec4 where
  x : GLfloat
  y : GLfloat
  z : GLfloat
  w : GLfloat
  deriving DecidableEq

/-- Models `glm::ivec2`. -/
structure IVec2 where
  x : Int
  y : Int
  deriving DecidableEq

/-- Models `glm::ivec3`. -/
structure IVec3 where
  x : Int
  y : Int
  z : Int
  deriving DecidableEq

/-- Models `glm::ivec4`. -/
structure IVec4 where
  x : Int
  y : Int
  z : Int
  w : Int
  deriving DecidableEq

/-- Models `glm::mat3` (nine floats, column-major). -/
structure Mat3 where
  entries : List GLfloat
  deriving DecidableEq

/-- Models `glm::mat4` (sixteen floats, column-major). -/
structure Mat4 where
  entries : List GLfloat
  deriving DecidableEq

/-- One typed `glUniform*` store, with its raw arguments. -/
inductive UniformWrite
  | mat4fv (count transpose : Nat) (m : Mat4)
  | mat3fv (count transpose : Nat) (m : Mat3)
  | f4 (x y z w : GLfloat)
  | f3 (x y z : GLfloat)
  | f2 (x y : GLfloat)
  | f1 (v : GLfloat)
  | i4 (x y z w : Int)
  | i3 (x y z : Int)
  | i2 (x y : Int)
  | i1 (v : Int)
  deriving DecidableEq

/-- Modelled from the spec: the uniform-related state of the native graphics
context — the currently bound program, the per-program table of active
uniform locations queried by `glGetUniformLocation`, and the uniform stores
applied so far. -/
structure GLUniformCtx where
  boundProgram : Nat
  locTable : Nat → List Char → Option Nat
  writes : List (Nat × UniformWrite)

/-- Modelled from the spec: `glGetUniformLocation` resolves a name in the
given program's table and returns `-1` when the name is not found. -/
def glGetUniformLocation (ctx : GLUniformCtx) (program : Nat) (name : List Char) : Int :=
  match ctx.locTable program name with
  | some loc => (loc : Int)
  | none => -1

/-- Modelled from the spec: a typed `glUniform*` push onto the currently
bound program; with location `-1` it is silently a no-op and changes
nothing. -/
def glUniformApply (ctx : GLUniformCtx) (location : Int) (w : UniformWrite) : GLUniformCtx :=
  if location < 0 then ctx
  else { ctx with writes := ctx.writes ++ [(location.toNat, w)] }

/-- The members of `OpenGLShader` relevant to the uniform uploads. -/
structure OpenGLShaderObj where
  m_RendererID : Nat
  m_Name : List Char
  deriving DecidableEq

/-- Embeds `OpenGLShader::UploadUniformMat4` (OpenGLShader.cpp:211-215).
The third component is the list of diagnostics emitted (always none: the
function contains no logging). -/
def UploadUniformMat4 (sh : OpenGLShaderObj) (ctx : GLUniformCtx) (name : List Char)
    (matrix : Mat4) : OpenGLShaderObj × GLUniformCtx × List (List Char) :=
  let location := glGetUniformLocation ctx sh.m_RendererID name
  (sh, glUniformApply ctx location (.mat4fv 1 0 matrix), [])

/-- Embeds `OpenGLShader::UploadUniformMat3` (OpenGLShader.cpp:217-221). -/
def UploadUniformMat3 (sh : OpenGLShaderObj) (ctx : GLUniformCtx) (name : List Char)
    (matrix : Mat3) : OpenGLShaderObj × GLUniformCtx × List (List Char) :=
  let location := glGetUniformLocation ctx sh.m_RendererID name
  (sh, glUniformApply ctx location (.mat3fv 1 0 matrix), [])

/-- Embeds `OpenGLShader::UploadUniformFloat4` (OpenGLShader.cpp:223-227). -/
def UploadUniformFloat4 (sh : OpenGLShaderObj) (ctx : GLUniformCtx) (name : List Char)
    (vector : Vec4) : OpenGLShaderObj × GLUniformCtx × List (List Char) :=
  let location := glGetUniformLocation ctx sh.m_RendererID name
  (sh, glUniformApply ctx location (.f4 vector.x vector.y vector.z vector.w), [])

/-- Embeds `OpenGLShader::UploadUniformFloat3` (OpenGLShader.cpp:229-233). -/
def UploadUniformFloat3 (sh : OpenGLShaderObj) (ctx : GLUniformCtx) (name : List Char)
    (vector : Vec3) : OpenGLShaderObj × GLUniformCtx × List (List Char) :=
  let location := glGetUniformLocation ctx sh.m_RendererID name
  (sh, glUniformApply ctx location (.f3 vector.x vector.y vector.z), [])

/-- Embeds `OpenGLShader::UploadUniformFloat2` (OpenGLShader.cpp:235-239). -/
def UploadUniformFloat2 (sh : OpenGLShaderObj) (ctx : GLUniformCtx) (name : List Char)
    (vector : Vec2) : OpenGLShaderObj × GLUniformCtx × List (List Char) :=
  let location := glGetUniformLocation ctx sh.m_RendererID name
  (sh, glUniformApply ctx location (.f2 vector.x vector.y), [])

/-- Embeds `OpenGLShader::UploadUniformFloat` (OpenGLShader.cpp:241-245). -/
def UploadUniformFloat (sh : OpenGLShaderObj) (ctx : GLUniformCtx) (name : List Char)
    (value : GLfloat) : OpenGLShaderObj × GLUniformCtx × List (List Char) :=
  let location := glGetUniformLocation ctx sh.m_RendererID name
  (sh, glUniformApply ctx location (.f1 value), [])

/-- Embeds `OpenGLShader::UploadUniformInt4` (OpenGLShader.cpp:247-251). -/
def UploadUniformInt4 (sh : OpenGLShaderObj) (ctx : GLUniformCtx) (name : List Char)
    (vector : IVec4) : OpenGLShaderObj × GLUniformCtx × List (List Char) :=
  let location := glGetUniformLocation ctx sh.m_RendererID name
  (sh, glUniformApply ctx location (.i4 vector.x vector.y vector.z vector.w), [])

/-- Embeds `OpenGLShader::UploadUniformInt3` (OpenGLShader.cpp:253-257). -/
def UploadUniformInt3 (sh : OpenGLShaderObj) (ctx : GLUniformCtx) (name : List Char)
    (vector : IVec3) : OpenGLShaderObj × GLUniformCtx × List (List Char) :=
  let location := glGetUniformLocation ctx sh.m_RendererID name
  (sh, glUniformApply ctx location (.i3 vector.x vector.y vector.z), [])

/-- Embeds `OpenGLShader::UploadUniformInt2` (OpenGLShader.cpp:259-263). -/
def UploadUniformInt2 (sh : OpenGLShaderObj) (ctx : GLUniformCtx) (name : List Char)
    (vector : IVec2) : OpenGLShaderObj × GLUniformCtx × List (List Char) :=
  let location := glGetUniformLocation ctx sh.m_RendererID name
  (sh, glUniformApply ctx location (.i2 vector.x vector.y), [])

/-- Embeds `OpenGLShader::UploadUniformInt` (OpenGLShader.cpp:265-270). -/
def UploadUniformInt (sh : OpenGLShaderObj) (ctx : GLUniformCtx) (name : List Char)
    (value : Int) : OpenGLShaderObj × GLUniformCtx × List (List Char) :=
  let location := glGetUniformLocation ctx sh.m_RendererID name
  (sh, glUniformApply ctx location (.i1 value), [])

/-- Embeds `OpenGLShader::UploadUniformBool` (OpenGLShader.cpp:272-276),
which pushes `(int)value`. -/
def UploadUniformBool (sh : OpenGLShaderObj) (ctx : GLUniformCtx) (name : List Char)
    (value : Bool) : OpenGLShaderObj × GLUniformCtx × List (List Char) :=
  let location := glGetUniformLocation ctx sh.m_RendererID name
  (sh, glUniformApply ctx location (.i1 (if value then 1 else 0)), [])

/-- C8: when the target program is bound (as the spec requires of callers)
and the uniform name does not resolve to a slot of that program, every typed
upload is silently a no-op: the graphics context is unchanged, no diagnostic
is emitted, and the shader object itself is returned untouched. -/
theorem C8_unresolved_uniform_silent_noop
    (sh : OpenGLShaderObj) (ctx : GLUniformCtx) (name : List Char)
    (hb : ctx.boundProgram = sh.m_RendererID)
    (h : ctx.locTable ctx.boundProgram name = none) :
    (∀ m : Mat4, UploadUniformMat4 sh ctx name m = (sh, ctx, [])) ∧
    (∀ m : Mat3, UploadUniformMat3 sh ctx name m = (sh, ctx, [])) ∧
    (∀ v : Vec4, UploadUniformFloat4 sh ctx name v = (sh, ctx, [])) ∧
    (∀ v : Vec3, UploadUniformFloat3 sh ctx name v = (sh, ctx, [])) ∧
    (∀ v : Vec2, UploadUniformFloat2 sh ctx name v = (sh, ctx, [])) ∧
    (∀ v : GLfloat, UploadUniformFloat sh ctx name v = (sh, ctx, [])) ∧
    (∀ v : IVec4, UploadUniformInt4 sh ctx name v = (sh, ctx, [])) ∧
    (∀ v : IVec3, UploadUniformInt3 sh ctx name v = (sh, ctx, [])) ∧
    (∀ v : IVec2, UploadUniformInt2 sh ctx name v = (sh, ctx, [])) ∧
    (∀ v : Int, UploadUniformInt sh ctx name v = (sh, ctx, [])) ∧
    (∀ v : Bool, UploadUniformBool sh ctx name v = (sh, ctx, [])) := by
  rw [hb] at h
  have hloc : glGetUniformLocation ctx sh.m_RendererID name = -1 := by
    simp [glGetUniformLocation, h]
  have happ : ∀ w, glUniformApply ctx (-1) w = ctx := by
    intro w
    simp [glUniformApply]
  simp [UploadUniformMat4, UploadUniformMat3, UploadUniformFloat4, UploadUniformFloat3,
    UploadUniformFloat2, UploadUniformFloat, UploadUniformInt4, UploadUniformInt3,
    UploadUniformInt2, UploadUniformInt, UploadUniformBool, hloc, happ]

/-- Witness for C8: a bound program with an empty uniform table; uploading
under any name (here `"u_Color"`) changes nothing. -/
theorem C8_witness :
    (∀ m : Mat4, UploadUniformMat4 ⟨7, ("T").toList⟩ ⟨7, fun _ _ => none, []⟩
      (("u_Color").toList) m = (⟨7, ("T").toList⟩, ⟨7, fun _ _ => none, []⟩, [])) ∧
    (∀ m : Mat3, UploadUniformMat3 ⟨7, ("T").toList⟩ ⟨7, fun _ _ => none, []⟩
      (("u_Color").toList) m = (⟨7, ("T").toList⟩, ⟨7, fun _ _ => none, []⟩, [])) ∧
    (∀ v : Vec4, UploadUniformFloat4 ⟨7, ("T").toList⟩ ⟨7, fun _ _ => none, []⟩
      (("u_Color").toList) v = (⟨7, ("T").toList⟩, ⟨7, fun _ _ => none, []⟩, [])) ∧
    (∀ v : Vec3, UploadUniformFloat3 ⟨7, ("T").toList⟩ ⟨7, fun _ _ => none, []⟩
      (("u_Color").toList) v = (⟨7, ("T").toList⟩, ⟨7, fun _ _ => none, []⟩, [])) ∧
    (∀ v : Vec2, UploadUniformFloat2 ⟨7, ("T").toList⟩ ⟨7, fun _ _ => none, []⟩
      (("u_Color").toList) v = (⟨7, ("T").toList⟩, ⟨7, fun _ _ => none, []⟩, [])) ∧
    (∀ v : GLfloat, UploadUniformFloat ⟨7, ("T").toList⟩ ⟨7, fun _ _ => none, []⟩
      (("u_Color").toList) v = (⟨7, ("T").toList⟩, ⟨7, fun _ _ => none, []⟩, [])) ∧
    (∀ v : IVec4, UploadUniformInt4 ⟨7, ("T").toList⟩ ⟨7, fun _ _ => none, []⟩
      (("u_Color").toList) v = (⟨7, ("T").toList⟩, ⟨7, fun _ _ => none, []⟩, [])) ∧
    (∀ v : IVec3, UploadUniformInt3 ⟨7, ("T").toList⟩ ⟨7, fun _ _ => none, []⟩
      (("u_Color").toList) v = (⟨7, ("T").toList⟩, ⟨7, fun _ _ => none, []⟩, [])) ∧
    (∀ v : IVec2, UploadUniformInt2 ⟨7, ("T").toList⟩ ⟨7, fun _ _ => none, []⟩
      (("u_Color").toList) v = (⟨7, ("T").toList⟩, ⟨7, fun _ _ => none, []⟩, [])) ∧
    (∀ v : Int, UploadUniformInt ⟨7, ("T").toList⟩ ⟨7, fun _ _ => none, []⟩
      (("u_Color").toList) v = (⟨7, ("T").toList⟩, ⟨7, fun _ _ => none, []⟩, [])) ∧
    (∀ v : Bool, UploadUniformBool ⟨7, ("T").toList⟩ ⟨7, fun _ _ => none, []⟩
      (("u_Color").toList) v = (⟨7, ("T").toList⟩, ⟨7, fun _ _ => none, []⟩, [])) :=
  C8_unresolved_uniform_silent_noop ⟨7, ("T").toList⟩ ⟨7, fun _ _ => none, []⟩
    (("u_Color").toList) rfl rfl

/-! ## OpenGLVertexArray.cpp : AddVertexBuffer (claim C7) -/

/-- The `ShaderDataType` enumeration of the (absent) `Buffer.h`, with the
cases enumerated by the `switch` of `ShaderDataTypeToOpenGLBaseType`. -/
inductive ShaderDataType
  | Float
  | Float2
  | Float3
  | Float4
  | Mat3
  | Mat4
  | Int
  | Int2
  | Int3
  | Int4
  | Bool
  deriving DecidableEq

/-- The OpenGL enumerant `GL_FLOAT` (0x1406). -/
def GL_FLOAT : Nat := 5126

/-- The OpenGL enumerant `GL_INT` (0x1404). -/
def GL_INT : Nat := 5124

/-- The OpenGL enumerant `GL_BOOL` (0x8B56). -/
def GL_BOOL : Nat := 35670

/-- Embeds `ShaderDataTypeToOpenGLBaseType` (OpenGLVertexArray.cpp:8-29). -/
def ShaderDataTypeToOpenGLBaseType : ShaderDataType → Nat
  | .Float => GL_FLOAT
  | .Float2 => GL_FLOAT
  | .Float3 => GL_FLOAT
  | .Float4 => GL_FLOAT
  | .Mat3 => GL_FLOAT
  | .Mat4 => GL_FLOAT
  | .Int => GL_INT
  | .Int2 => GL_INT
  | .Int3 => GL_INT
  | .Int4 => GL_INT
  | .Bool => GL_BOOL

/-- Modelled from the spec: `BufferElement::GetComponentCount` of the absent
`Buffer.h` — "semantic type (float/int/bool, arity 1-4, or 3x3/4x4 matrix)". -/
def GetComponentCount : ShaderDataType → Nat
  | .Float => 1
  | .Float2 => 2
  | .Float3 => 3
  | .Float4 => 4
  | .Mat3 => 9
  | .Mat4 => 16
  | .Int => 1
  | .Int2 => 2
  | .Int3 => 3
  | .Int4 => 4
  | .Bool => 1

/-- Modelled from the spec: per-element byte size (4-byte scalars), used
only to derive the stride ("stride derived from the sequence"); the claims
do not depend on its exact values. -/
def ShaderDataTypeSize (t : ShaderDataType) : Nat := 4 * GetComponentCount t

/-- Modelled from the spec: a layout element of the absent `Buffer.h` —
"{semantic type, byte offset, normalized flag}".  The source names the first
field `Type`, a reserved word here. -/
structure BufferElement where
  etype : ShaderDataType
  Offset : Nat
  Normalized : Bool
  deriving DecidableEq

/-- Modelled from the spec: a vertex buffer carrying its declared layout
(`GetLayout().GetElements()` as an ordered sequence). -/
structure VertexBuffer where
  layout : List BufferElement
  deriving DecidableEq

/-- Modelled from the spec: `BufferLayout::GetStride`, derived from the
element sequence. -/
def GetStride (layout : List BufferElement) : Nat :=
  (layout.map (fun e => ShaderDataTypeSize e.etype)).sum

/-- Native calls issued by `AddVertexBuffer`. -/
inductive VAEvent
  | bindVertexArray (id : Nat)
  | bindVertexBuffer
  | enableVertexAttribArray (index : Nat)
  | vertexAttribPointer (index count baseType normalized stride offset : Nat)
  deriving DecidableEq

/-- The members of `OpenGLVertexArray` used by `AddVertexBuffer`. -/
structure OpenGLVertexArray where
  m_RendererID : Nat
  m_VertexBufferIndex : Nat
  m_VertexBuffers : List VertexBuffer
  deriving DecidableEq

/-- The per-element loop of `AddVertexBuffer` (OpenGLVertexArray.cpp:64-76):
enable and set up one attribute slot per layout element, incrementing
`m_VertexBufferIndex` each time; returns the events and the final counter. -/
def attribLoop (stride : Nat) : List BufferElement → Nat → List VAEvent × Nat
  | [], index => ([], index)
  | e :: rest, index =>
    let next := attribLoop stride rest (index + 1)
    ([VAEvent.enableVertexAttribArray index,
      VAEvent.vertexAttribPointer index (GetComponentCount e.etype)
        (ShaderDataTypeToOpenGLBaseType e.etype) (if e.Normalized then 1 else 0)
        stride e.Offset] ++ next.1, next.2)

/-- Embeds `OpenGLVertexArray::AddVertexBuffer` (OpenGLVertexArray.cpp:55-79);
`none` models the fatal `HZ_CORE_ASSERT` on an empty layout. -/
def AddVertexBuffer (va : OpenGLVertexArray) (vertexBuffer : VertexBuffer) :
    Option (OpenGLVertexArray × List VAEvent) :=
  if vertexBuffer.layout.length = 0 then none
  else
    let next := attribLoop (GetStride vertexBuffer.layout) vertexBuffer.layout
      va.m_VertexBufferIndex
    some ({ va with
        m_VertexBufferIndex := next.2,
        m_VertexBuffers := va.m_VertexBuffers ++ [vertexBuffer] },
      [VAEvent.bindVertexArray va.m_RendererID, VAEvent.bindVertexBuffer] ++ next.1)

/-- A sequence of `AddVertexBuffer` calls on one array, accumulating the
event trace. -/
def AddVertexBuffers (va : OpenGLVertexArray) :
    List VertexBuffer → Option (OpenGLVertexArray × List VAEvent)
  | [] => some (va, [])
  | vb :: rest =>
    match AddVertexBuffer va vb with
    | none => none
    | some (va', evs) =>
      match AddVertexBuffers va' rest with
      | none => none
      | some (va'', evs') => some (va'', evs ++ evs')

/-- The attribute-slot indices bound by a trace, in order. -/
def attribSlots (evs : List VAEvent) : List Nat :=
  evs.filterMap (fun e => match e with
    | VAEvent.vertexAttribPointer index _ _ _ _ _ => some index
    | _ => none)

theorem attribSlots_append (a b : List VAEvent) :
    attribSlots (a ++ b) = attribSlots a ++ attribSlots b := by
  simp [attribSlots]

theorem attribSlots_binds (i : Nat) :
    attribSlots [VAEvent.bindVertexArray i, VAEvent.bindVertexBuffer] = [] := by
  simp [attribSlots]

theorem attribLoop_snd (stride : Nat) (elems : List BufferElement) :
    ∀ index, (attribLoop stride elems index).2 = index + elems.length := by
  induction elems with
  | nil => intro index; simp [attribLoop]
  | cons e rest ih =>
    intro index
    simp [attribLoop, ih]
    omega

theorem attribLoop_slots (stride : Nat) (elems : List BufferElement) :
    ∀ index, attribSlots (attribLoop stride elems index).1 =
      List.range' index elems.length := by
  induction elems with
  | nil => intro index; simp [attribLoop, attribSlots]
  | cons e rest ih =>
    intro index
    simp [attribLoop, attribSlots] at ih ⊢
    rw [ih, List.range'_succ]

/-- C7: on any sequence of `AddVertexBuffer` calls whose buffers all carry a
nonempty layout (the empty layout is a fatal precondition violation), each
call creates exactly one attribute binding per layout element, the slot
indices over the whole sequence are exactly the consecutive range starting
at the array's current next-free-slot counter, and the counter ends at its
start plus the total element count — it is never reset between attachments,
so successive buffers occupy fresh non-overlapping slots. -/
theorem C7_sequential_attribute_slots
    (vbs : List VertexBuffer) (va : OpenGLVertexArray)
    (h : ∀ vb ∈ vbs, vb.layout.length ≠ 0) :
    (AddVertexBuffers va vbs).map
        (fun r => (r.1.m_VertexBufferIndex, attribSlots r.2)) =
      some (va.m_VertexBufferIndex + (vbs.map (fun vb => vb.layout.length)).sum,
        List.range' va.m_VertexBufferIndex (vbs.map (fun vb => vb.layout.length)).sum) := by
  induction vbs generalizing va with
  | nil => simp [AddVertexBuffers, attribSlots]
  | cons vb rest ih =>
    have hvb : vb.layout.length ≠ 0 := h vb (by simp)
    have hrest : ∀ b ∈ rest, b.layout.length ≠ 0 := fun b hb => h b (by simp [hb])
    have hsnd := attribLoop_snd (GetStride vb.layout) vb.layout va.m_VertexBufferIndex
    have hslots := attribLoop_slots (GetStride vb.layout) vb.layout va.m_VertexBufferIndex
    have hih := ih
      { va with
        m_VertexBufferIndex := (attribLoop (GetStride vb.layout) vb.layout
          va.m_VertexBufferIndex).2,
        m_VertexBuffers := va.m_VertexBuffers ++ [vb] } hrest
    rcases hB : AddVertexBuffers
        { va with
          m_VertexBufferIndex := (attribLoop (GetStride vb.layout) vb.layout
            va.m_VertexBufferIndex).2,
          m_VertexBuffers := va.m_VertexBuffers ++ [vb] } rest with _ | ⟨va2, evs2⟩
    · rw [hB] at hih
      simp at hih
    · rw [hB] at hih
      rw [Option.map_some'] at hih
      rw [Option.some.injEq, Prod.mk.injEq] at hih
      rw [hsnd] at hih
      obtain ⟨h1, h2⟩ := hih
      simp at h1 h2
      simp only [AddVertexBuffers, AddVertexBuffer, if_neg hvb, hB, Option.map_some']
      rw [Option.some.injEq, Prod.mk.injEq]
      constructor
      · simp only [List.map_cons, List.sum_cons]
        omega
      · rw [attribSlots_append, attribSlots_append, attribSlots_binds, hslots, h2]
        simp only [List.nil_append]
        have hr := List.range'_append va.m_VertexBufferIndex vb.layout.length
          ((rest.map (fun b => b.layout.length)).sum) 1
        simp only [Nat.one_mul] at hr
        rw [hr]
        simp only [List.map_cons, List.sum_cons]
        congr 1
        omega

/-- Witness for C7: layouts of 2 then 3 elements from a fresh array give
slots 0-1 and 2-4 — the consecutive range of five slots. -/
theorem C7_witness :
    (AddVertexBuffers ⟨5, 0, []⟩
        [⟨[⟨ShaderDataType.Float3, 0, false⟩, ⟨ShaderDataType.Float4, 12, false⟩]⟩,
         ⟨[⟨ShaderDataType.Float, 0, false⟩, ⟨ShaderDataType.Float2, 4, false⟩,
           ⟨ShaderDataType.Int, 12, false⟩]⟩]).map
        (fun r => (r.1.m_VertexBufferIndex, attribSlots r.2)) =
      some ((0 : Nat) +
        (([⟨[⟨ShaderDataType.Float3, 0, false⟩, ⟨ShaderDataType.Float4, 12, false⟩]⟩,
           ⟨[⟨ShaderDataType.Float, 0, false⟩, ⟨ShaderDataType.Float2, 4, false⟩,
             ⟨ShaderDataType.Int, 12, false⟩]⟩] : List VertexBuffer).map
          (fun vb => vb.layout.length)).sum,
        List.range' 0
          (([⟨[⟨ShaderDataType.Float3, 0, false⟩, ⟨ShaderDataType.Float4, 12, false⟩]⟩,
             ⟨[⟨ShaderDataType.Float, 0, false⟩, ⟨ShaderDataType.Float2, 4, false⟩,
               ⟨ShaderDataType.Int, 12, false⟩]⟩] : List VertexBuffer).map
            (fun vb => vb.layout.length)).sum) :=
  C7_sequential_attribute_slots
    [⟨[⟨ShaderDataType.Float3, 0, false⟩, ⟨ShaderDataType.Float4, 12, false⟩]⟩,
     ⟨[⟨ShaderDataType.Float, 0, false⟩, ⟨ShaderDataType.Float2, 4, false⟩,
       ⟨ShaderDataType.Int, 12, false⟩]⟩] ⟨5, 0, []⟩ (by decide)

example :
    (AddVertexBuffers ⟨5, 0, []⟩
        [⟨[⟨ShaderDataType.Float3, 0, false⟩, ⟨ShaderDataType.Float4, 12, false⟩]⟩,
         ⟨[⟨ShaderDataType.Float, 0, false⟩, ⟨ShaderDataType.Float2, 4, false⟩,
           ⟨ShaderDataType.Int, 12, false⟩]⟩]).map (fun r => attribSlots r.2) =
      some [0, 1, 2, 3, 4] := by decide

end Hazel
